import Mathlib

/-!
Verification of the r2-object-worker repository: a shallow embedding of the
KV chunked cache (src/services/kv-cache.ts), the object service
(src/services/object.ts), the header builder (src/utils/cache.ts), the
content-type classifier (src/utils/content-type.ts) and the bucket router
(src/middleware/bucket-router.ts), together with theorems settling the
frozen claims about their behaviour.

Bytes are modelled as `List Nat`, JavaScript numbers on the Range-parsing
path as `Option Int` (`none` plays the role of `NaN`, whose comparisons are
all false), and header maps as association lists with case-insensitive
names, matching the Fetch `Headers` class.  String scanning is done on
`String.data` character lists so that every definition evaluates by kernel
reduction.
-/

namespace R2Worker

/-- A JavaScript number restricted to the values that occur on the range
path: either an integer or `NaN` (`none`).  All `NaN` comparisons in the
source are false, which the call sites below encode explicitly. -/
abbrev JSNum := Option Int

/-- String rendering of a `JSNum`, as JavaScript template literals render
it (`NaN` prints as the text "NaN"; integers print in decimal with a
leading minus for negatives). -/
def jsNumStr : JSNum → String
  | none => "NaN"
  | some i => i.repr

/-- JavaScript truthiness of a nullable string: `null` and the empty
string are falsy. -/
def jsTruthyStr : Option String → Bool
  | none => false
  | some s => !s.isEmpty

/-- JavaScript `parseInt(s, 10)` restricted to the captured digit runs of
the range grammar: a non-empty all-digit run parses to its value; the
empty capture yields `NaN` (`none`). -/
def jsParseDigits (cs : List Char) : Option Nat :=
  if cs = [] || !cs.all Char.isDigit then none
  else some (cs.foldl (fun n c => 10 * n + (c.toNat - 48)) 0)

/-- Split a character list at its unique dash, failing when there is no
dash or more than one (the `(\d*)-(\d*)` part of the anchored range
regex admits no dash inside a capture). -/
def splitAtDash : List Char → Option (List Char × List Char)
  | [] => none
  | '-' :: t => if t.contains '-' then none else some ([], t)
  | c :: t => (splitAtDash t).map (fun p => (c :: p.1, p.2))

/-- The match of the anchored pattern `^bytes=(\d*)-(\d*)$` used by both
range parsers in the source (kv-cache.ts line 586 and object.ts line
1484): the header must start with `bytes=` and the remainder must be two
digit runs (each possibly empty) separated by exactly one dash. -/
def rangeRegexMatch (header : String) : Option (List Char × List Char) :=
  match header.data with
  | 'b' :: 'y' :: 't' :: 'e' :: 's' :: '=' :: rest =>
    match splitAtDash rest with
    | some (a, b) =>
      if a.all Char.isDigit && b.all Char.isDigit then some (a, b) else none
    | none => none
  | _ => none

/-- The interval produced by `parseRange` in kv-cache.ts.  The start bound
is a `JSNum` because the source can produce `NaN` (header `bytes=-`) and
negative values (suffix longer than the body); the end bound is always an
actual integer. -/
structure JSRange where
  start : JSNum
  stop : Int
  deriving Repr, DecidableEq

/-- Shallow embedding of `parseRange` (kv-cache.ts lines 585-602). -/
def parseRange (header : String) (total : Int) : Option JSRange :=
  match rangeRegexMatch header with
  | none => none
  | some (startStr, endStr) =>
    if startStr = [] ∧ endStr ≠ [] then
      -- Suffix branch: `return { start: total - suffix, end: total - 1 }`,
      -- with no bounds check of any kind.
      match jsParseDigits endStr with
      | some suffix => some { start := some (total - suffix), stop := total - 1 }
      | none => none
    else
      let endVal : Int :=
        match jsParseDigits endStr with
        | some e => (e : Int)
        | none => total - 1
      match jsParseDigits startStr with
      | none =>
        -- `start` is NaN: `start > end` and `start >= total` are both
        -- false, so the source falls through to the success return.
        some { start := none, stop := min endVal (total - 1) }
      | some s =>
        if (s : Int) > endVal ∨ (s : Int) ≥ total then none
        else some { start := some s, stop := min endVal (total - 1) }

example : parseRange "bytes=0-4" 10 = some { start := some 0, stop := 4 } := by decide
example : parseRange "bytes=5-" 10 = some { start := some 5, stop := 9 } := by decide
example : parseRange "bytes=-4" 10 = some { start := some 6, stop := 9 } := by decide
example : parseRange "bytes=-0" 10 = some { start := some 10, stop := 9 } := by decide
example : parseRange "bytes=-11" 10 = some { start := some (-1), stop := 9 } := by decide
example : parseRange "bytes=-" 10 = some { start := none, stop := 9 } := by decide
example : parseRange "bytes=10-" 10 = none := by decide
example : parseRange "bytes=5-2" 10 = none := by decide
example : parseRange "bytes=0-4,7-9" 10 = none := by decide
example : parseRange "foo" 10 = none := by decide
example : parseRange "bytes=0-99" 10 = some { start := some 0, stop := 9 } := by decide

-- ── Headers model (Fetch `Headers`: case-insensitive names, set replaces) ──

/-- Lower-case code of a character, for case-insensitive header-name
comparison. -/
def lowerCode (c : Char) : Nat :=
  if 65 ≤ c.toNat ∧ c.toNat ≤ 90 then c.toNat + 32 else c.toNat

/-- Normalised key of a header name. -/
def nameKey (s : String) : List Nat := s.data.map lowerCode

/-- A header map: association list in insertion order, names compared
case-insensitively as the Fetch `Headers` class does. -/
abbrev HeadersM := List (String × String)

/-- `headers.get(name)`. -/
def hget (h : HeadersM) (name : String) : Option String :=
  (h.find? (fun p => nameKey p.1 = nameKey name)).map Prod.snd

/-- `headers.has(name)`. -/
def hhas (h : HeadersM) (name : String) : Bool :=
  (hget h name).isSome

/-- `headers.set(name, value)`: replace in place when present, append
otherwise. -/
def hset (h : HeadersM) (name value : String) : HeadersM :=
  if h.any (fun p => nameKey p.1 = nameKey name) then
    h.map (fun p => if nameKey p.1 = nameKey name then (p.1, value) else p)
  else h ++ [(name, value)]

/-- `headers.delete(name)`. -/
def hdelete (h : HeadersM) (name : String) : HeadersM :=
  h.filter (fun p => nameKey p.1 ≠ nameKey name)

example : hget (hset [("content-type", "a")] "Content-Type" "b") "CONTENT-TYPE" = some "b" := by decide
example : hget (hset [] "ETag" "x") "etag" = some "x" := by decide

-- ── ArrayBuffer.slice on byte lists ──

/-- Resolve one `ArrayBuffer.slice` index against a length: negative
indices count from the end, then both are clamped into `[0, len]`. -/
def resolveSliceIdx (len : Nat) (i : Int) : Nat :=
  if i < 0 then (max ((len : Int) + i) 0).toNat else min i.toNat len

/-- `buffer.slice(s, e)` with full JavaScript index semantics. -/
def jsSlice (l : List Nat) (s e : Int) : List Nat :=
  (l.take (resolveSliceIdx l.length e)).drop (resolveSliceIdx l.length s)

/-- `ToInteger` coercion applied to a slice argument: `NaN` becomes 0. -/
def jsNumToSliceArg : JSNum → Int
  | none => 0
  | some i => i

example : jsSlice [0, 1, 2, 3, 4] 1 3 = [1, 2] := by decide
example : jsSlice [0, 1, 2, 3, 4] (-2) 5 = [3, 4] := by decide
example : jsSlice [0, 1, 2, 3, 4] 3 2 = [] := by decide

-- ── Content-type classifier (src/utils/content-type.ts) ──

/-- The eight object categories of the classifier. -/
inductive ObjectType
  | image | video | audio | font | document | static | archive | binary
  deriving Repr, DecidableEq

/-- The string value of an `ObjectType` (the TS type is a string union, so
the category is its own name). -/
def objectTypeName : ObjectType → String
  | .image => "image"
  | .video => "video"
  | .audio => "audio"
  | .font => "font"
  | .document => "document"
  | .static => "static"
  | .archive => "archive"
  | .binary => "binary"

/-- `EXTENSION_MAP` from content-type.ts, verbatim. -/
def EXTENSION_MAP : List (String × String) :=
  [("png", "image/png"), ("jpg", "image/jpeg"), ("jpeg", "image/jpeg"), ("gif", "image/gif"),
   ("webp", "image/webp"), ("svg", "image/svg+xml"), ("avif", "image/avif"), ("ico", "image/x-icon"),
   ("tiff", "image/tiff"), ("tif", "image/tiff"), ("bmp", "image/bmp"),
   ("pdf", "application/pdf"), ("doc", "application/msword"),
   ("docx", "application/vnd.openxmlformats-officedocument.wordprocessingml.document"),
   ("xls", "application/vnd.ms-excel"),
   ("xlsx", "application/vnd.openxmlformats-officedocument.spreadsheetml.sheet"),
   ("ppt", "application/vnd.ms-powerpoint"),
   ("pptx", "application/vnd.openxmlformats-officedocument.presentationml.presentation"),
   ("txt", "text/plain"), ("rtf", "application/rtf"),
   ("html", "text/html"), ("htm", "text/html"), ("css", "text/css"), ("js", "text/javascript"),
   ("json", "application/json"), ("xml", "application/xml"),
   ("zip", "application/zip"), ("rar", "application/vnd.rar"), ("gz", "application/gzip"),
   ("tar", "application/x-tar"), ("7z", "application/x-7z-compressed"),
   ("mp3", "audio/mpeg"), ("wav", "audio/wav"), ("ogg", "audio/ogg"), ("m4a", "audio/m4a"),
   ("flac", "audio/flac"), ("aac", "audio/aac"),
   ("mp4", "video/mp4"), ("webm", "video/webm"), ("avi", "video/x-msvideo"),
   ("mov", "video/quicktime"), ("wmv", "video/x-ms-wmv"), ("mkv", "video/x-matroska"),
   ("woff", "font/woff"), ("woff2", "font/woff2"), ("ttf", "font/ttf"), ("otf", "font/otf"),
   ("eot", "application/vnd.ms-fontobject")]

/-- `ARCHIVE_TYPES` set. -/
def ARCHIVE_TYPES : List String :=
  ["application/zip", "application/vnd.rar", "application/gzip",
   "application/x-tar", "application/x-7z-compressed"]

/-- `DOCUMENT_TYPES` set. -/
def DOCUMENT_TYPES : List String :=
  ["text/html", "text/plain", "application/pdf", "application/rtf",
   "application/msword",
   "application/vnd.openxmlformats-officedocument.wordprocessingml.document",
   "application/vnd.ms-excel",
   "application/vnd.openxmlformats-officedocument.spreadsheetml.sheet",
   "application/vnd.ms-powerpoint",
   "application/vnd.openxmlformats-officedocument.presentationml.presentation",
   "application/xml"]

/-- `STATIC_TYPES` set. -/
def STATIC_TYPES : List String :=
  ["text/css", "text/javascript", "application/json"]

/-- Lower-case a character as `String.prototype.toLowerCase` does on
ASCII. -/
def charLower (c : Char) : Char :=
  if 65 ≤ c.toNat ∧ c.toNat ≤ 90 then Char.ofNat (c.toNat + 32) else c

/-- `s.toLowerCase()` (ASCII range, which covers object-key extensions). -/
def toLowerStr (s : String) : String :=
  String.mk (s.data.map charLower)

/-- `s.split(sep)` on a single-character separator, as a structural
recursion over the character list. -/
def splitOnChar (sep : Char) : List Char → List (List Char)
  | [] => [[]]
  | c :: t =>
    match splitOnChar sep t with
    | [] => [[c]]
    | h :: r => if c = sep then [] :: h :: r else (c :: h) :: r

/-- `s.startsWith(p)` on character data. -/
def strStarts (s p : String) : Bool :=
  s.data.take p.data.length = p.data

/-- `getContentType` (content-type.ts): last-dot extension, lower-cased,
looked up in the table, defaulting to `application/octet-stream`. -/
def getContentType (key : String) : String :=
  let ext :=
    match (splitOnChar '.' key.data).getLast? with
    | some cs => toLowerStr (String.mk cs)
    | none => ""
  match (EXTENSION_MAP.find? (fun p => p.1 = ext)).map Prod.snd with
  | some mime => mime
  | none => "application/octet-stream"

/-- `getObjectType` (content-type.ts lines 61-70): prefix rules for
image/video/audio/font (with the explicit `application/vnd.ms-fontobject`
special case), then the three explicit sets, else `binary`. -/
def getObjectType (contentType : String) : ObjectType :=
  if strStarts contentType "image/" then .image
  else if strStarts contentType "video/" then .video
  else if strStarts contentType "audio/" then .audio
  else if strStarts contentType "font/" || contentType = "application/vnd.ms-fontobject" then .font
  else if ARCHIVE_TYPES.contains contentType then .archive
  else if DOCUMENT_TYPES.contains contentType then .document
  else if STATIC_TYPES.contains contentType then .static
  else .binary

example : getContentType "photos/sunset.JPG" = "image/jpeg" := by decide
example : getContentType "file.xyz" = "application/octet-stream" := by decide
example : getObjectType "image/png" = .image := by decide
example : getObjectType "application/zip" = .archive := by decide
example : getObjectType "application/x-bzip2" = .binary := by decide

-- ── Cache utils (src/utils/cache.ts, first/current variant) ──

/-- `cacheConfig.cacheTags` record.  `pre` is the tag prefix string of the
source (field renamed for Lean).  `defaultTags = none` models a value that
is not an array (the source checks `Array.isArray`). -/
structure CacheTagsConfig where
  enabled : Bool
  pre : Option String
  defaultTags : Option (List String)

/-- One entry of `objectTypeConfig`. -/
structure ObjectTypeConfigEntry where
  maxAge : Option Nat
  tags : Option (List String)

/-- The cache policy configuration consumed by cache.ts. -/
structure CacheConfig where
  cacheTags : Option CacheTagsConfig
  objectTypeConfig : ObjectType → Option ObjectTypeConfigEntry
  defaultMaxAge : Nat
  defaultStaleWhileRevalidate : Nat

/-- `generateCacheTags` (cache.ts lines 6-39). -/
def generateCacheTags (objectType : Option ObjectType) (cacheConfig : CacheConfig)
    (objectKey : Option String) (host : Option String) : List String :=
  match cacheConfig.cacheTags with
  | none => []
  | some tagConfig =>
    if !tagConfig.enabled then []
    else
      let pre := tagConfig.pre.getD ""
      let keyTags :=
        match host, objectKey with
        | some h, some k =>
          if !h.isEmpty && !k.isEmpty then [pre ++ h ++ "/" ++ k]
          else if !k.isEmpty then [pre ++ k]
          else []
        | none, some k => if !k.isEmpty then [pre ++ k] else []
        | _, none => []
      let typeTags :=
        match objectType with
        | some t =>
          let base := [pre ++ "type-" ++ objectTypeName t]
          match (cacheConfig.objectTypeConfig t).bind (fun c => c.tags) with
          | some l => if l ≠ [] then base ++ l.map (fun s => pre ++ s) else base
          | none => base
        | none => []
      let defTags :=
        match tagConfig.defaultTags with
        | some l => l.map (fun s => pre ++ s)
        | none => []
      keyTags ++ typeTags ++ defTags

/-- `buildCacheControl` (cache.ts lines 43-56). -/
def buildCacheControl (objectType : Option ObjectType) (cacheConfig : CacheConfig) : String :=
  let otConfig := objectType.bind cacheConfig.objectTypeConfig
  let maxAge := ((otConfig.bind (fun c => c.maxAge)).getD cacheConfig.defaultMaxAge)
  let swr := cacheConfig.defaultStaleWhileRevalidate
  "public, max-age=" ++ toString maxAge ++ ", stale-while-revalidate=" ++ toString swr

/-- The `extra` argument of `buildResponseHeaders`.  `bypass` is optional
in the source with `undefined` falsy, so a plain `Bool` is faithful. -/
structure HeaderExtra where
  etag : String
  size : Nat
  objectKey : String
  host : Option String
  customTags : Option (List String)
  bypass : Bool

/-- `buildResponseHeaders` (cache.ts lines 64-113): base headers from R2
metadata, fixed response headers, then either the bypass `Cache-Control`
or the policy `Cache-Control` plus the `Cache-Tag` emission, where the
caller's custom tags are appended to whatever `generateCacheTags`
produced. -/
def buildResponseHeaders (r2Headers : HeadersM) (objectType : ObjectType)
    (cacheConfig : CacheConfig) (extra : HeaderExtra) : HeadersM :=
  let h := r2Headers
  let h := hset h "ETag" extra.etag
  let h := if !hhas h "Content-Type" then hset h "Content-Type" (getContentType extra.objectKey) else h
  let h := hset h "Content-Length" (toString extra.size)
  let h := hset h "Accept-Ranges" "bytes"
  let h := hset h "X-Content-Type-Options" "nosniff"
  if extra.bypass then hset h "Cache-Control" "no-store, max-age=0"
  else
    let h := hset h "Cache-Control" (buildCacheControl (some objectType) cacheConfig)
    let tags := generateCacheTags (some objectType) cacheConfig (some extra.objectKey) extra.host
    let tags :=
      match extra.customTags with
      | some l => if l ≠ [] then tags ++ l else tags
      | none => tags
    if tags ≠ [] then hset h "Cache-Tag" (String.intercalate "," tags) else h

-- ── KV chunked cache: constants and records (src/services/kv-cache.ts) ──

/-- `MAX_SINGLE_ENTRY` = 20 MiB. -/
def MAX_SINGLE_ENTRY : Nat := 20 * 1024 * 1024

/-- `CHUNK_SIZE` = 20 MiB. -/
def CHUNK_SIZE : Nat := 20 * 1024 * 1024

/-- `MAX_KV_CACHE_SIZE` = 500 MiB. -/
def MAX_KV_CACHE_SIZE : Nat := 500 * 1024 * 1024

/-- `MIN_CACHE_TTL` = 60 s. -/
def MIN_CACHE_TTL : Nat := 60

/-- `MIN_EXPIRATION_TTL` = 60 s. -/
def MIN_EXPIRATION_TTL : Nat := 60

/-- `KVCacheMetadata` stored on the base key of every entry. -/
structure KVCacheMetadata where
  contentType : String
  contentLength : Nat
  etag : String
  isChunked : Bool
  createdAt : Int
  maxAge : Nat
  headers : HeadersM
  deriving Repr

/-- `ChunkManifest` stored as the JSON value of the base key of a chunked
entry. -/
structure ChunkManifest where
  totalSize : Nat
  chunkCount : Nat
  chunkSizes : List Nat
  deriving Repr, DecidableEq

/-- `x || y` on a nullable string: `null` and `""` fall through to the
default. -/
def jsOrStr (o : Option String) (d : String) : String :=
  match o with
  | some s => if s.isEmpty then d else s
  | none => d

/-- `extractCacheHeaders` (kv-cache.ts lines 609-620): keep the preserved
subset, skipping absent and empty values (both falsy). -/
def extractCacheHeaders (headers : HeadersM) : HeadersM :=
  let preserve := ["Cache-Control", "Cache-Tag", "Last-Modified",
    "Content-Disposition", "Content-Encoding", "Content-Language"]
  preserve.foldl (fun acc name =>
    match hget headers name with
    | some v => if !v.isEmpty then acc ++ [(name, v)] else acc
    | none => acc) []

/-- The JSON value written to the base KV key: either the single-entry
marker `{ singleEntry: true }` or a chunk manifest. -/
inductive KVValue
  | singleMarker
  | manifestVal (m : ChunkManifest)
  deriving Repr

/-- One event of a KV write call, in program (initiation) order.  A `put`
event is recorded where the source calls `kv.put(...)` — before any
awaiting — and `awaitAll` is the `await Promise.all(...)` barrier.  The
per-chunk KV metadata `{chunkIndex, size}` is determined by the recorded
index and bytes and is not repeated here. -/
inductive KVEvent
  | putBase (v : KVValue) (md : KVCacheMetadata) (ttl : Nat)
  | putBody (b : List Nat) (ttl : Nat)
  | putChunk (i : Nat) (b : List Nat) (ttl : Nat)
  | awaitAll
  deriving Repr

/-- The metadata record built at the top of both write functions. -/
def mkWriteMetadata (headers : HeadersM) (size : Nat) (isChunked : Bool)
    (now : Int) (maxAge : Nat) : KVCacheMetadata :=
  { contentType := jsOrStr (hget headers "Content-Type") "application/octet-stream"
    contentLength := size
    etag := jsOrStr (hget headers "ETag") ""
    isChunked := isChunked
    createdAt := now
    maxAge := maxAge
    headers := extractCacheHeaders headers }

/-- Shallow embedding of `kvCachePut` (kv-cache.ts lines 197-263), as the
sequence of KV operations it initiates, in program order.  `now` stands
for `Date.now()`. -/
def kvCachePut (body : List Nat) (headers : HeadersM) (maxAge : Nat) (now : Int) :
    List KVEvent :=
  let size := body.length
  if size > MAX_KV_CACHE_SIZE then []
  else
    let metadata := mkWriteMetadata headers size (decide (size > MAX_SINGLE_ENTRY)) now maxAge
    let expirationTtl := max MIN_EXPIRATION_TTL maxAge
    if !metadata.isChunked then
      [.putBase .singleMarker metadata expirationTtl, .putBody body expirationTtl, .awaitAll]
    else
      -- `for i in 0..chunkCount`: slice `[i*CHUNK_SIZE, min((i+1)*CHUNK_SIZE, size))`
      let chunkCount := (size + CHUNK_SIZE - 1) / CHUNK_SIZE
      let chunkSlices := (List.range chunkCount).map (fun i =>
        jsSlice body ((i * CHUNK_SIZE : Nat) : Int) ((min ((i + 1) * CHUNK_SIZE) size : Nat) : Int))
      let manifest : ChunkManifest :=
        { totalSize := size, chunkCount := chunkCount,
          chunkSizes := chunkSlices.map List.length }
      (chunkSlices.enum.map (fun p => KVEvent.putChunk p.1 p.2 expirationTtl)) ++
        [.putBase (.manifestVal manifest) metadata expirationTtl, .awaitAll]

/-- The inner copy loop of `kvCachePutStream` (lines 363-389) applied to a
single stream frame: copy into the chunk accumulator, emitting a chunk
every time it fills to exactly `CHUNK_SIZE`.  Returns the chunks emitted
by this frame (in upload order) and the accumulator contents afterwards.
The `toCopy = 0` branch is unreachable while the accumulator is below
`CHUNK_SIZE` (the source flushes at exactly `CHUNK_SIZE`); it is present
only to make the recursion total. -/
def fillChunks (fill value : List Nat) : List (List Nat) × List Nat :=
  if hv : value = [] then ([], fill)
  else
    let space := CHUNK_SIZE - fill.length
    let toCopy := min space value.length
    if htc : toCopy = 0 then ([], fill)
    else
      let fill2 := fill ++ value.take toCopy
      let rest := value.drop toCopy
      if fill2.length = CHUNK_SIZE then
        let p := fillChunks [] rest
        (fill2 :: p.1, p.2)
      else
        fillChunks fill2 rest
  termination_by value.length
  decreasing_by
  all_goals
    have h1 : 0 < value.length := List.length_pos.mpr hv
    have h2 := Nat.pos_of_ne_zero htc
    simp only [List.length_drop]
    omega

/-- The outer `while (true) read()` loop of `kvCachePutStream`: feed each
stream frame through the copy loop, threading the accumulator. -/
def streamChunkLoop (fill : List Nat) : List (List Nat) → List (List Nat) × List Nat
  | [] => ([], fill)
  | v :: vs =>
    let p := fillChunks fill v
    let q := streamChunkLoop p.2 vs
    (p.1 ++ q.1, q.2)

/-- Shallow embedding of `kvCachePutStream` (kv-cache.ts lines 284-416).
The input stream is a list of frames (each `reader.read()` result); the
bytes of the object are their concatenation.  Events are the KV puts in
initiation order followed by the single `Promise.all` barrier. -/
def kvCachePutStream (frags : List (List Nat)) (totalSize : Nat) (headers : HeadersM)
    (maxAge : Nat) (now : Int) : List KVEvent :=
  if totalSize > MAX_KV_CACHE_SIZE then []
  else
    let isChunked := decide (totalSize > MAX_SINGLE_ENTRY)
    let metadata := mkWriteMetadata headers totalSize isChunked now maxAge
    let expirationTtl := max MIN_EXPIRATION_TTL maxAge
    if !isChunked then
      -- small path: drain the stream into one buffer, then two puts
      [.putBase .singleMarker metadata expirationTtl, .putBody frags.flatten expirationTtl,
       .awaitAll]
    else
      let p := streamChunkLoop [] frags
      -- final flush of a non-empty partial accumulator (lines 393-404)
      let chunks := if p.2 ≠ [] then p.1 ++ [p.2] else p.1
      let manifest : ChunkManifest :=
        { totalSize := totalSize, chunkCount := chunks.length,
          chunkSizes := chunks.map List.length }
      (chunks.enum.map (fun q => KVEvent.putChunk q.1 q.2 expirationTtl)) ++
        [.putBase (.manifestVal manifest) metadata expirationTtl, .awaitAll]

-- ── KV chunked cache: read path ──

/-- The observable part of a `Response` produced by the KV cache read
path: status, headers, and the bytes that reach the client.  `body = none`
models a stream aborted by a missing chunk (the client sees a truncated
body). -/
structure RespModel where
  status : Nat
  headers : HeadersM
  body : Option (List Nat)
  deriving Repr

/-- `buildHeaders` (kv-cache.ts lines 455-469). -/
def buildHeaders (metadata : KVCacheMetadata) : HeadersM :=
  let h := hset [] "Content-Type" metadata.contentType
  let h := hset h "Accept-Ranges" "bytes"
  let h := hset h "X-Content-Type-Options" "nosniff"
  let h := hset h "X-KV-Cache-Status" "HIT"
  let h := metadata.headers.foldl (fun acc p => hset acc p.1 p.2) h
  if !metadata.etag.isEmpty then hset h "ETag" metadata.etag else h

/-- `buildResponse` (kv-cache.ts lines 424-443): single-entry body, 206
with a slice when a Range header parses, 200 full otherwise. -/
def buildResponse (body : List Nat) (metadata : KVCacheMetadata)
    (rangeHeader : Option String) : RespModel :=
  let headers := buildHeaders metadata
  let fullResp : RespModel :=
    { status := 200, headers := hset headers "Content-Length" (toString body.length),
      body := some body }
  match rangeHeader with
  | none => fullResp
  | some rh =>
    if rh.isEmpty then fullResp
    else
      match parseRange rh (body.length : Int) with
      | none => fullResp
      | some range =>
        let slice := jsSlice body (jsNumToSliceArg range.start) (range.stop + 1)
        let h := hset headers "Content-Range"
          ("bytes " ++ jsNumStr range.start ++ "-" ++ range.stop.repr ++ "/" ++
            toString body.length)
        let h := hset h "Content-Length" (toString slice.length)
        { status := 206, headers := h, body := some slice }

/-- `a < b` on a plain count against a `JSNum`: false when `b` is NaN. -/
def jsNatLtNum (n : Nat) (r : JSNum) : Bool :=
  match r with
  | none => false
  | some v => decide ((n : Int) < v)

/-- The chunk loop of `buildChunkedRangeResponse` (kv-cache.ts lines
540-565), iterating over the manifest's chunk sizes while
`bytesWritten < rangeLength`.  A chunk whose `[chunkOffset, chunkEnd]`
span overlaps `[start, stop]` is fetched (a missing chunk aborts the
stream: result `none`) and sliced at the chunk-local bounds.  When
`start` is `NaN` both overlap comparisons are false, so every chunk is
skipped. -/
def chunkedRangeLoop (getChunk : Nat → Option (List Nat)) (start : JSNum) (stop : Int)
    (rangeLength : JSNum) :
    List Int → Nat → Int → Nat → List Nat → Option (List Nat)
  | [], _, _, _, acc => some acc
  | sz :: rest, i, chunkOffset, bytesWritten, acc =>
    -- `bytesWritten < rangeLength` is false when rangeLength is NaN
    if jsNatLtNum bytesWritten rangeLength then
      let chunkEnd := chunkOffset + sz - 1
      match start with
      | none =>
        chunkedRangeLoop getChunk start stop rangeLength rest (i + 1) (chunkOffset + sz)
          bytesWritten acc
      | some s =>
        if chunkEnd ≥ s ∧ chunkOffset ≤ stop then
          match getChunk i with
          | none => none
          | some chunk =>
            let sliceStart := max 0 (s - chunkOffset)
            let sliceEnd := min sz (stop - chunkOffset + 1)
            let slice := jsSlice chunk sliceStart sliceEnd
            chunkedRangeLoop getChunk start stop rangeLength rest (i + 1) (chunkOffset + sz)
              (bytesWritten + slice.length) (acc ++ slice)
        else
          chunkedRangeLoop getChunk start stop rangeLength rest (i + 1) (chunkOffset + sz)
            bytesWritten acc
    else some acc

/-- `buildChunkedRangeResponse` (kv-cache.ts lines 519-575).  The loop
walks `chunkSizes[0..chunkCount)`; taking the first `chunkCount` sizes is
extensionally faithful also when the manifest is inconsistent (indexing
past the array yields `undefined`, making every later comparison false,
so those iterations write nothing — exactly what truncation yields). -/
def buildChunkedRangeResponse (getChunk : Nat → Option (List Nat)) (manifest : ChunkManifest)
    (metadata : KVCacheMetadata) (rangeHeader : String) : Option RespModel :=
  match parseRange rangeHeader (manifest.totalSize : Int) with
  | none => none
  | some range =>
    let headers := buildHeaders metadata
    let rangeLength : JSNum :=
      match range.start with
      | none => none
      | some s => some (range.stop - s + 1)
    let h := hset headers "Content-Range"
      ("bytes " ++ jsNumStr range.start ++ "-" ++ range.stop.repr ++ "/" ++
        toString manifest.totalSize)
    let h := hset h "Content-Length" (jsNumStr rangeLength)
    let body := chunkedRangeLoop getChunk range.start range.stop rangeLength
      ((manifest.chunkSizes.take manifest.chunkCount).map (fun (n : Nat) => (n : Int))) 0 0 0 []
    some { status := 206, headers := h, body := body }

/-- `buildChunkedFullResponse` (kv-cache.ts lines 476-509): fetch chunks
`0..chunkCount` sequentially into the stream; a missing chunk aborts. -/
def buildChunkedFullResponse (getChunk : Nat → Option (List Nat)) (manifest : ChunkManifest)
    (metadata : KVCacheMetadata) : RespModel :=
  let headers := buildHeaders metadata
  let h := hset headers "Content-Length" (toString manifest.totalSize)
  let body := (List.range manifest.chunkCount).foldl (fun acc i =>
    match acc, getChunk i with
    | some l, some c => some (l ++ c)
    | _, _ => none) (some [])
  { status := 200, headers := h, body := body }

/-- The KV keys of one cache entry, as the read path sees them: the base
key's value (decoded: a single-entry marker or a manifest) together with
its metadata, the `_body` companion, and the `_chunk_i` companions. -/
structure KVStore where
  base : Option (KVValue × KVCacheMetadata)
  body : Option (List Nat)
  chunk : Nat → Option (List Nat)

/-- Shallow embedding of `kvCacheMatch` (kv-cache.ts lines 127-182).
`now` is `Date.now()`; the float age comparison
`(now - createdAt) / 1000 > maxAge` is `now - createdAt > maxAge * 1000`
over the integers.  A single-entry marker on the chunked path fails the
manifest-field check (`JSON.parse` of the marker has no `chunkCount`), so
it is a miss. -/
def kvCacheMatch (store : KVStore) (now : Int) (rangeHeader : Option String) :
    Option RespModel :=
  match store.base with
  | none => none
  | some (v, metadata) =>
    if now - metadata.createdAt > (metadata.maxAge : Int) * 1000 then none
    else if !metadata.isChunked then
      match store.body with
      | none => none
      | some body =>
        if body.length ≠ metadata.contentLength then none
        else some (buildResponse body metadata rangeHeader)
    else
      match v with
      | .singleMarker => none
      | .manifestVal manifest =>
        if manifest.chunkCount = 0 then none
        else if jsTruthyStr rangeHeader then
          buildChunkedRangeResponse store.chunk manifest metadata (rangeHeader.getD "")
        else
          some (buildChunkedFullResponse store.chunk manifest metadata)

-- ── Object service, R2-binding path (src/services/object.ts) ──

/-- `CACHE_API_SIZE_LIMIT` = 28 MiB. -/
def CACHE_API_SIZE_LIMIT : Nat := 28 * 1024 * 1024

/-- The `R2Range` option object produced by `parseRangeHeader`.  The
offset of the offset-only form is a `JSNum` because the degenerate header
`bytes=-` produces `{ offset: NaN }` in the source. -/
inductive R2Range
  | offsetOnly (o : JSNum)
  | offsetLength (o : Nat) (len : Int)
  | suffix (n : Nat)
  deriving Repr, DecidableEq

/-- `parseRangeHeader` (object.ts lines 1483-1504): unparseable headers
fall back to `{ offset: 0 }`. -/
def parseRangeHeader (header : String) : R2Range :=
  match rangeRegexMatch header with
  | none => .offsetOnly (some 0)
  | some (startStr, endStr) =>
    if startStr = [] ∧ endStr ≠ [] then
      match jsParseDigits endStr with
      | some n => .suffix n
      | none => .suffix 0
    else
      match jsParseDigits startStr with
      | none => .offsetOnly none  -- "bytes=-": `parseInt('')` is NaN
      | some o =>
        if endStr = [] then .offsetOnly (some o)
        else
          match jsParseDigits endStr with
          | some e => .offsetLength o ((e : Int) - o + 1)
          | none => .offsetOnly (some o)

example : parseRangeHeader "foo" = .offsetOnly (some 0) := by decide
example : parseRangeHeader "bytes=3-7" = .offsetLength 3 5 := by decide
example : parseRangeHeader "bytes=-9" = .suffix 9 := by decide
example : parseRangeHeader "bytes=4-" = .offsetOnly (some 4) := by decide

/-- `buildContentRange` (object.ts lines 1460-1469), including the falsy
fall-throughs for `suffix: 0` and `length: 0`. -/
def buildContentRange (r : R2Range) (total : Nat) : String :=
  match r with
  | .suffix n =>
    if n ≠ 0 then
      "bytes " ++ ((total : Int) - n).repr ++ "-" ++ ((total : Int) - 1).repr ++ "/" ++
        toString total
    else
      "bytes 0-" ++ ((total : Int) - 1).repr ++ "/" ++ toString total
  | .offsetOnly o =>
    "bytes " ++ jsNumStr o ++ "-" ++ ((total : Int) - 1).repr ++ "/" ++ toString total
  | .offsetLength o l =>
    if l ≠ 0 then
      "bytes " ++ toString o ++ "-" ++ ((o : Int) + l - 1).repr ++ "/" ++ toString total
    else
      "bytes " ++ toString o ++ "-" ++ ((total : Int) - 1).repr ++ "/" ++ toString total

/-- `rangeLength` (object.ts lines 1471-1476), with the same falsy
fall-throughs; NaN propagates from a NaN offset. -/
def rangeLengthR2 (r : R2Range) (total : Nat) : JSNum :=
  match r with
  | .offsetLength o l => if l ≠ 0 then some l else some ((total : Int) - o)
  | .suffix n => if n ≠ 0 then some (n : Int) else some (total : Int)
  | .offsetOnly o =>
    match o with
    | some v => some ((total : Int) - v)
    | none => none

/-- `buildCachePutHeaders` (object.ts lines 1437-1456). -/
def buildCachePutHeaders (responseHeaders : HeadersM) (contentLength : String) : HeadersM :=
  let h : HeadersM :=
    [("Content-Type", jsOrStr (hget responseHeaders "Content-Type") "application/octet-stream"),
     ("Cache-Control", jsOrStr (hget responseHeaders "Cache-Control") "public, max-age=86400"),
     ("Content-Length", contentLength),
     ("Accept-Ranges", "bytes"),
     ("X-Content-Type-Options", "nosniff")]
  let propagate := ["ETag", "Last-Modified", "Content-Disposition", "Content-Encoding",
    "Content-Language", "Cache-Tag"]
  propagate.foldl (fun acc name =>
    match hget responseHeaders name with
    | some v => if !v.isEmpty then hset acc name v else acc
    | none => acc) h

/-- Scan for the first match of `/max-age=(\d+)/`: a position matches only
when `max-age=` is followed by at least one digit, otherwise the scan
continues. -/
def findMaxAge : List Char → Option Nat
  | [] => none
  | c :: t =>
    if (c :: t).take 8 = "max-age=".data then
      let run := ((c :: t).drop 8).takeWhile Char.isDigit
      match jsParseDigits run with
      | some n => some n
      | none => findMaxAge t
    else findMaxAge t

example : findMaxAge "public, max-age=3600, stale-while-revalidate=60".data = some 3600 := by decide

/-- The `maxAge` computation at both KV call sites (object.ts lines 1257
and 1360): `parseInt(cacheHeaders.get('Cache-Control')?.match(/max-age=(\d+)/)?.[1] || '86400', 10)`. -/
def maxAgeOfHeaders (h : HeadersM) : Nat :=
  match hget h "Cache-Control" with
  | some cc =>
    match findMaxAge cc.data with
    | some n => n
    | none => 86400
  | none => 86400

/-- The object stored in the bucket at the requested key: its bytes, its
strong ETag, and the headers `writeHttpMetadata` restores. -/
structure R2Obj where
  bytes : List Nat
  httpEtag : String
  httpHeaders : HeadersM

/-- Application of a requested range by the platform (modelled from the
Cloudflare R2 documentation: `get` rejects an unsatisfiable range by
throwing, clamps an overlong length or suffix, and echoes the requested
range on `object.range`).  `none` models the throw. -/
def r2ApplyRange (bytes : List Nat) : Option R2Range → Option (List Nat)
  | none => some bytes
  | some (.offsetOnly none) => none
  | some (.offsetOnly (some o)) =>
    if 0 ≤ o ∧ o ≤ (bytes.length : Int) then some (bytes.drop o.toNat) else none
  | some (.offsetLength o l) =>
    if 0 < l ∧ (o : Int) ≤ (bytes.length : Int) then some ((bytes.drop o).take l.toNat)
    else none
  | some (.suffix n) =>
    if n ≠ 0 then some (bytes.drop (bytes.length - n)) else none

/-- A write into one of the two cache tiers, as initiated by the object
service: an edge-cache `cache.put` of a `Response` with the recorded
status, headers and body, or a hand-off of a body to `kvCachePutStream`. -/
inductive CacheEvent
  | cacheApiPut (status : Nat) (headers : HeadersM) (body : List Nat)
  | kvPutStream (body : List Nat) (totalSize : Nat) (headers : HeadersM) (maxAge : Nat)
  deriving Repr

/-- The request fields `getObjectViaR2` reads. -/
structure ServiceRequest where
  rangeHeader : Option String
  hasConditional : Bool
  methodGET : Bool
  host : String

/-- The environment of one `getObjectViaR2` call: bucket content and the
outcome of the fallible collaborator calls. -/
structure ServiceCtx where
  obj : Option R2Obj
  transportError : Bool
  fullGetError : Bool
  condNotModified : Bool
  kvCacheAvailable : Bool
  bypassCache : Bool
  cacheConfig : CacheConfig
  key : String
  customTags : Option (List String)

/-- The background work of `cacheFullFromR2` (object.ts lines 1232-1269):
refetch the full object and populate whichever tier fits its size.  An
error or a vanished object produces no write. -/
def cacheFullFromR2 (req : ServiceRequest) (sctx : ServiceCtx) : List CacheEvent :=
  if sctx.fullGetError then []
  else
    match sctx.obj with
    | none => []
    | some obj =>
      let fullHeaders :=
        if !hhas obj.httpHeaders "Content-Type" then
          hset obj.httpHeaders "Content-Type" (getContentType sctx.key)
        else obj.httpHeaders
      let fullObjectType := getObjectType (jsOrStr (hget fullHeaders "Content-Type") "")
      let cacheResponseHeaders := buildResponseHeaders fullHeaders fullObjectType sctx.cacheConfig
        { etag := obj.httpEtag, size := obj.bytes.length, objectKey := sctx.key,
          host := some req.host, customTags := sctx.customTags, bypass := false }
      let cacheHeaders := buildCachePutHeaders cacheResponseHeaders (toString obj.bytes.length)
      if sctx.kvCacheAvailable ∧ obj.bytes.length > CACHE_API_SIZE_LIMIT then
        [.kvPutStream obj.bytes obj.bytes.length cacheHeaders (maxAgeOfHeaders cacheHeaders)]
      else
        [.cacheApiPut 200 cacheHeaders obj.bytes]

/-- Shallow embedding of `getObjectViaR2` (object.ts lines 1213-1429):
the response returned to the client and the cache writes the call
initiates (directly or through its registered background task).  The
cache probes before this call are in `getObject` and never write, so the
events below are the complete set of cache writes of the request. -/
def getObjectViaR2 (req : ServiceRequest) (sctx : ServiceCtx) : RespModel × List CacheEvent :=
  let rangeOpt : Option R2Range :=
    if jsTruthyStr req.rangeHeader then some (parseRangeHeader (req.rangeHeader.getD ""))
    else none
  if sctx.transportError then
    ({ status := 502, headers := [("Content-Type", "text/plain")], body := some [] }, [])
  else
    match sctx.obj with
    | none => ({ status := 404, headers := [("Content-Type", "text/plain")], body := some [] }, [])
    | some obj =>
      match r2ApplyRange obj.bytes rangeOpt with
      | none =>
        -- the ranged `bucket.get` threw: same catch as a transport error
        ({ status := 502, headers := [("Content-Type", "text/plain")], body := some [] }, [])
      | some servedBytes =>
        if req.hasConditional ∧ sctx.condNotModified then
          ({ status := 304, headers := [("ETag", obj.httpEtag)], body := some [] }, [])
        else
          let r2Headers :=
            if !hhas obj.httpHeaders "Content-Type" then
              hset obj.httpHeaders "Content-Type" (getContentType sctx.key)
            else obj.httpHeaders
          let objectType := getObjectType (jsOrStr (hget r2Headers "Content-Type") "")
          let headers := buildResponseHeaders r2Headers objectType sctx.cacheConfig
            { etag := obj.httpEtag, size := obj.bytes.length, objectKey := sctx.key,
              host := some req.host, customTags := sctx.customTags, bypass := sctx.bypassCache }
          let headers := hset headers "X-Fetch-Via" "r2-binding"
          match rangeOpt with
          | some rr =>
            -- `if (rangeHeader && body.range)`: `body.range` echoes the
            -- requested range, so this branch is taken exactly when a
            -- (truthy) Range header was sent.
            let events :=
              if !sctx.bypassCache && req.methodGET then cacheFullFromR2 req sctx else []
            let h := hset headers "Content-Range" (buildContentRange rr obj.bytes.length)
            let h := hset h "Content-Length" (jsNumStr (rangeLengthR2 rr obj.bytes.length))
            ({ status := 206, headers := h, body := some servedBytes }, events)
          | none =>
            if sctx.bypassCache || !req.methodGET then
              ({ status := 200, headers := headers, body := some obj.bytes }, [])
            else
              let cacheHeaders := buildCachePutHeaders headers (toString obj.bytes.length)
              if sctx.kvCacheAvailable ∧ obj.bytes.length > CACHE_API_SIZE_LIMIT then
                ({ status := 200, headers := headers, body := some obj.bytes },
                 [.kvPutStream obj.bytes obj.bytes.length cacheHeaders
                    (maxAgeOfHeaders cacheHeaders)])
              else
                ({ status := 200, headers := headers, body := some obj.bytes },
                 [.cacheApiPut 200 cacheHeaders obj.bytes])

-- ── Bucket router and serveObject guard (src/middleware/bucket-router.ts, src/index.ts) ──

/-- One entry of `BUCKET_ROUTING.routes`. -/
structure BucketRoute where
  host : String
  pathPre : String
  bucket : String
  stripPre : Bool

/-- `s.endsWith(p)`. -/
def strEnds (s p : String) : Bool :=
  s.data.drop (s.data.length - p.data.length) = p.data && p.data.length ≤ s.data.length

/-- `matchHost` (bucket-router.ts lines 57-64). -/
def matchHost (pattern hostname : String) : Bool :=
  if pattern = "*" then true
  else if strStarts pattern "*." then
    let sfx := String.mk (pattern.data.drop 1)
    strEnds hostname sfx && hostname.data.length > sfx.data.length
  else pattern == hostname

example : matchHost "*.erfi.dev" "cdn.erfi.dev" = true := by decide
example : matchHost "*.erfi.dev" ".erfi.dev" = false := by decide
example : matchHost "*" "anything" = true := by decide

/-- The first matching route (bucket-router.ts lines 20-28). -/
def findRoute (routes : List BucketRoute) (hostname pathname : String) : Option BucketRoute :=
  routes.find? (fun r => matchHost r.host hostname && strStarts pathname r.pathPre)

/-- `s.replace(/^\//, '')`. -/
def dropLeadSlash (s : String) : String :=
  match s.data with
  | '/' :: t => String.mk t
  | _ => s

/-- The object-key derivation of `bucketRouter` (bucket-router.ts lines
38-46): path minus the leading slash, then, for a matched stripping route
whose prefix is not `/`, minus that prefix and one further leading
slash. -/
def deriveObjectKey (matched : Option BucketRoute) (pathname : String) : String :=
  let objectKey := String.mk (pathname.data.drop 1)
  match matched with
  | some route =>
    if route.stripPre ∧ route.pathPre ≠ "/" then
      let preNoSlash := dropLeadSlash route.pathPre
      if strStarts objectKey preNoSlash then
        dropLeadSlash (String.mk (objectKey.data.drop preNoSlash.data.length))
      else objectKey
    else objectKey
  | none => objectKey

/-- The outcome of the `serveObject` handler chain (index.ts lines 24-28
after `bucketRouter`): an immediate 500 when the bucket binding is
missing, an immediate 404 when the derived key is empty, or the hand-off
to `getObject` (which is where every cache probe and origin fetch
lives). -/
inductive ServeOutcome
  | configError
  | notFound
  | delegated (key : String)
  deriving Repr, DecidableEq

/-- `bucketRouter` followed by the `serveObject` handler's empty-key
guard.  `bindings name` says whether `c.env[name]` is a bound R2
bucket. -/
def serveObject (routes : List BucketRoute) (defaultBucket : Option String)
    (bindings : String → Bool) (hostname pathname : String) : ServeOutcome :=
  let matched := findRoute routes hostname pathname
  let bucketName :=
    match matched with
    | some r => r.bucket
    | none => defaultBucket.getD "R2"
  if !bindings bucketName then .configError
  else
    let key := deriveObjectKey matched pathname
    if key.isEmpty then .notFound
    else .delegated key

-- ── Helper lemmas ──

theorem hget_hset (h : HeadersM) (n v n' : String) :
    hget (hset h n v) n' = if nameKey n' = nameKey n then some v else hget h n' := by
  unfold hget hset
  have hfst : ∀ p : String × String,
      ((fun p => if nameKey p.1 = nameKey n then (p.1, v) else p) p).1 = p.1 := by
    intro p
    by_cases hc : nameKey p.1 = nameKey n <;> simp [hc]
  by_cases hmem : h.any (fun p => decide (nameKey p.1 = nameKey n))
  · simp only [hmem, if_true]
    rw [List.find?_map]
    have hcomp : ((fun p : String × String => decide (nameKey p.1 = nameKey n')) ∘
        (fun p => if nameKey p.1 = nameKey n then (p.1, v) else p)) =
        (fun p : String × String => decide (nameKey p.1 = nameKey n')) := by
      funext p
      simp [Function.comp, hfst p]
    rw [hcomp]
    by_cases hkey : nameKey n' = nameKey n
    · rw [if_pos hkey]
      rcases List.any_eq_true.mp hmem with ⟨x, hx, hxn⟩
      have hsome : (h.find? (fun p => decide (nameKey p.1 = nameKey n'))).isSome := by
        rw [List.find?_isSome]
        exact ⟨x, hx, by simpa [hkey] using hxn⟩
      rcases Option.isSome_iff_exists.mp hsome with ⟨y, hy⟩
      have hyn : nameKey y.1 = nameKey n' := by
        have := List.find?_some hy
        simpa using this
      rw [hy]
      have hyn2 : nameKey y.1 = nameKey n := hkey ▸ hyn
      simp [hyn2]
    · rw [if_neg hkey]
      cases hfind : h.find? (fun p => decide (nameKey p.1 = nameKey n')) with
      | none => simp
      | some y =>
        have hyn : nameKey y.1 = nameKey n' := by
          have := List.find?_some hfind
          simpa using this
        have hyne : ¬ nameKey y.1 = nameKey n := fun hc => hkey (hyn ▸ hc)
        simp [hyne]
  · have hmemf : h.any (fun p => decide (nameKey p.1 = nameKey n)) = false := by
      simpa using hmem
    simp only [hmemf, Bool.false_eq_true, if_false]
    have hnone : ∀ x ∈ h, ¬ nameKey x.1 = nameKey n := by
      intro x hx hc
      apply hmem
      exact List.any_eq_true.mpr ⟨x, hx, by simpa using hc⟩
    rw [List.find?_append]
    by_cases hkey : nameKey n' = nameKey n
    · have hfn : h.find? (fun p => decide (nameKey p.1 = nameKey n')) = none := by
        rw [List.find?_eq_none]
        intro x hx
        simpa [hkey] using hnone x hx
      simp [hfn, List.find?, hkey.symm]
    · have hfn2 : List.find? (fun p => decide (nameKey p.1 = nameKey n')) [(n, v)] = none := by
        have hne : ¬ nameKey n = nameKey n' := fun hc => hkey hc.symm
        simp [List.find?, hne]
      simp [hfn2, hkey]

theorem hget_hset_same (h : HeadersM) (n v : String) : hget (hset h n v) n = some v := by
  simp [hget_hset]

theorem hget_hset_diff (h : HeadersM) (n v n' : String) (hne : nameKey n' ≠ nameKey n) :
    hget (hset h n v) n' = hget h n' := by
  simp [hget_hset, hne]

-- ── Claim theorems ──

/-- C10: the classifier maps the exact MIME string
`application/vnd.ms-fontobject` to the `font` category although it does
not start with `font/` and is in none of the archive, document or static
sets, and `.eot` keys therefore classify as `font` (not `binary`). -/
theorem eot_classified_as_font :
    getObjectType "application/vnd.ms-fontobject" = .font ∧
    strStarts "application/vnd.ms-fontobject" "font/" = false ∧
    ARCHIVE_TYPES.contains "application/vnd.ms-fontobject" = false ∧
    DOCUMENT_TYPES.contains "application/vnd.ms-fontobject" = false ∧
    STATIC_TYPES.contains "application/vnd.ms-fontobject" = false ∧
    getContentType "file.eot" = "application/vnd.ms-fontobject" ∧
    getObjectType (getContentType "file.eot") = .font := by
  decide

/-- C9: a request whose derived object key is empty (for example a path
equal to a stripping route's prefix) is answered 404 by the `serveObject`
guard before `getObject` is invoked, so neither cache tier is probed and
the origin is not contacted. -/
theorem serveObject_empty_key_404
    (routes : List BucketRoute) (defaultBucket : Option String) (bindings : String → Bool)
    (hostname pathname : String)
    (hbind : bindings (match findRoute routes hostname pathname with
      | some r => r.bucket
      | none => defaultBucket.getD "R2") = true)
    (hkey : deriveObjectKey (findRoute routes hostname pathname) pathname = "") :
    serveObject routes defaultBucket bindings hostname pathname = .notFound := by
  unfold serveObject
  simp [hbind, hkey]
  rfl

def c9route : BucketRoute :=
  { host := "*", pathPre := "/videos", bucket := "VIDEOS", stripPre := true }

theorem serveObject_empty_key_404_witness :
    (fun _ => true : String → Bool) (match findRoute [c9route] "v.erfi.dev" "/videos" with
      | some r => r.bucket
      | none => (none : Option String).getD "R2") = true ∧
    deriveObjectKey (findRoute [c9route] "v.erfi.dev" "/videos") "/videos" = "" ∧
    serveObject [c9route] none (fun _ => true) "v.erfi.dev" "/videos" = .notFound :=
  ⟨by decide, by decide,
    serveObject_empty_key_404 [c9route] none (fun _ => true) "v.erfi.dev" "/videos"
      (by decide) (by decide)⟩

/-- C3: the suffix branch of `parseRange` performs no validation, so the
claimed postcondition `0 ≤ start ≤ end < T` and the claimed failures fail
on accepted suffix inputs: `bytes=-0` against `T = 10` is accepted with
`start = 10 > 9 = end` (instead of failing with start ≥ T / start > end),
and `bytes=-` is accepted with a NaN start (instead of failing). -/
theorem parseRange_suffix_unvalidated :
    parseRange "bytes=-0" 10 = some { start := some 10, stop := 9 } ∧
    parseRange "bytes=-" 10 = some { start := none, stop := 9 } := by
  decide

/-- C7: a suffix range longer than the body is not clamped: `bytes=-11`
against `T = 10` yields `start = -1` (the source computes `total - suffix`
with no clamp), while the claim requires `start = 0`.  `bytes=-10`
(`N = T`) does yield the whole body. -/
theorem parseRange_suffix_overlong_not_clamped :
    parseRange "bytes=-11" 10 = some { start := some (-1), stop := 9 } ∧
    parseRange "bytes=-10" 10 = some { start := some 0, stop := 9 } := by
  decide

-- ── C4: ordering of chunk puts, manifest put and the await barrier ──

/-- The kind of a KV write event, for ordering statements that do not
depend on the written bytes. -/
inductive KVEventKind
  | chunkPut | basePut | bodyPut | awaitK
  deriving Repr, DecidableEq

def eventKind : KVEvent → KVEventKind
  | .putBase _ _ _ => .basePut
  | .putBody _ _ => .bodyPut
  | .putChunk _ _ _ => .chunkPut
  | .awaitAll => .awaitK

/-- The ordering property asserted by the claim, over event kinds: between
every chunk-put initiation and the manifest (base-key) put there is an
await barrier, so the manifest put starts only after every chunk put has
resolved. -/
def manifestAckBarrier (kinds : List KVEventKind) : Bool :=
  (List.range kinds.length).all fun i =>
    (List.range kinds.length).all fun j =>
      !(kinds.getD i .awaitK == .chunkPut && kinds.getD j .awaitK == .basePut) ||
        (List.range kinds.length).any fun k =>
          decide (i < k) && decide (k < j) && kinds.getD k .awaitK == .awaitK

theorem enum_putChunk_kinds (L : List (List Nat)) (ttl : Nat) :
    (L.enum.map (fun q => KVEvent.putChunk q.1 q.2 ttl)).map eventKind =
      List.replicate L.length .chunkPut := by
  rw [List.map_map]
  have hc : (eventKind ∘ fun q : Nat × List Nat => KVEvent.putChunk q.1 q.2 ttl) =
      fun _ => KVEventKind.chunkPut := by
    funext q; rfl
  rw [hc, List.map_const', List.enum_length]

theorem kvCachePut_chunked_kinds (body : List Nat) (headers : HeadersM) (maxAge : Nat)
    (now : Int) (h1 : MAX_SINGLE_ENTRY < body.length) (h2 : body.length ≤ MAX_KV_CACHE_SIZE) :
    (kvCachePut body headers maxAge now).map eventKind =
      List.replicate ((body.length + CHUNK_SIZE - 1) / CHUNK_SIZE) .chunkPut ++
        [.basePut, .awaitK] := by
  unfold kvCachePut
  rw [if_neg (by omega)]
  have hchunked : (mkWriteMetadata headers body.length
      (decide (body.length > MAX_SINGLE_ENTRY)) now maxAge).isChunked = true := by
    simp [mkWriteMetadata, h1]
  simp only [hchunked, Bool.not_true, Bool.false_eq_true, if_false]
  rw [List.map_append, enum_putChunk_kinds]
  simp [eventKind]

theorem kvCachePutStream_chunked_kinds (frags : List (List Nat)) (totalSize : Nat)
    (headers : HeadersM) (maxAge : Nat) (now : Int)
    (h1 : MAX_SINGLE_ENTRY < totalSize) (h2 : totalSize ≤ MAX_KV_CACHE_SIZE) :
    ∃ m, (kvCachePutStream frags totalSize headers maxAge now).map eventKind =
      List.replicate m .chunkPut ++ [.basePut, .awaitK] := by
  unfold kvCachePutStream
  rw [if_neg (by omega)]
  have hchunked : decide (totalSize > MAX_SINGLE_ENTRY) = true := by simp [h1]
  simp only [hchunked, Bool.not_true, Bool.false_eq_true, if_false]
  refine ⟨(if (streamChunkLoop [] frags).2 ≠ [] then
      (streamChunkLoop [] frags).1 ++ [(streamChunkLoop [] frags).2]
    else (streamChunkLoop [] frags).1).length, ?_⟩
  rw [List.map_append, enum_putChunk_kinds]
  simp [eventKind]

/-- C4 (amended): in both chunked write paths the manifest (base-key) put
is the last put initiated — every chunk put starts before it — and the
only `Promise.all` barrier comes after the manifest put; nothing orders
the manifest write after the chunk puts have resolved. -/
theorem manifest_put_initiated_last
    (body : List Nat) (frags : List (List Nat)) (totalSize : Nat)
    (headers : HeadersM) (maxAge : Nat) (now : Int)
    (hb1 : MAX_SINGLE_ENTRY < body.length) (hb2 : body.length ≤ MAX_KV_CACHE_SIZE)
    (hs1 : MAX_SINGLE_ENTRY < totalSize) (hs2 : totalSize ≤ MAX_KV_CACHE_SIZE) :
    (∃ n, 0 < n ∧ (kvCachePut body headers maxAge now).map eventKind =
        List.replicate n .chunkPut ++ [.basePut, .awaitK]) ∧
    (∃ m, (kvCachePutStream frags totalSize headers maxAge now).map eventKind =
        List.replicate m .chunkPut ++ [.basePut, .awaitK]) := by
  constructor
  · refine ⟨(body.length + CHUNK_SIZE - 1) / CHUNK_SIZE, ?_, ?_⟩
    · have hcs : 0 < CHUNK_SIZE := by norm_num [CHUNK_SIZE]
      exact Nat.div_pos (by omega) hcs
    · exact kvCachePut_chunked_kinds body headers maxAge now hb1 hb2
  · exact kvCachePutStream_chunked_kinds frags totalSize headers maxAge now hs1 hs2

theorem manifest_put_initiated_last_witness :
    MAX_SINGLE_ENTRY < (List.replicate (CHUNK_SIZE + 1) 0).length ∧
    (∃ n, 0 < n ∧ (kvCachePut (List.replicate (CHUNK_SIZE + 1) 0) [] 3600 0).map eventKind =
        List.replicate n .chunkPut ++ [.basePut, .awaitK]) ∧
    (∃ m, (kvCachePutStream [List.replicate (CHUNK_SIZE + 1) 0] (CHUNK_SIZE + 1) [] 3600 0).map
        eventKind = List.replicate m .chunkPut ++ [.basePut, .awaitK]) := by
  have hlen : (List.replicate (CHUNK_SIZE + 1) 0).length = CHUNK_SIZE + 1 :=
    List.length_replicate _ _
  have h1 : MAX_SINGLE_ENTRY < (List.replicate (CHUNK_SIZE + 1) 0).length := by
    rw [hlen]; norm_num [MAX_SINGLE_ENTRY, CHUNK_SIZE]
  have h2 : (List.replicate (CHUNK_SIZE + 1) 0).length ≤ MAX_KV_CACHE_SIZE := by
    rw [hlen]; norm_num [MAX_KV_CACHE_SIZE, CHUNK_SIZE]
  have h3 : MAX_SINGLE_ENTRY < CHUNK_SIZE + 1 := by norm_num [MAX_SINGLE_ENTRY, CHUNK_SIZE]
  have h4 : CHUNK_SIZE + 1 ≤ MAX_KV_CACHE_SIZE := by norm_num [MAX_KV_CACHE_SIZE, CHUNK_SIZE]
  have hmain := manifest_put_initiated_last (List.replicate (CHUNK_SIZE + 1) 0)
    [List.replicate (CHUNK_SIZE + 1) 0] (CHUNK_SIZE + 1) [] 3600 0 h1 h2 h3 h4
  exact ⟨h1, hmain.1, hmain.2⟩

/-- C4 counterexample: for a concrete two-chunk buffered write the
initiation order is chunk 0, chunk 1, manifest, await — there is no await
barrier between the chunk puts and the manifest put, so the manifest is
not written only after the chunk puts have been acknowledged. -/
theorem manifest_put_not_barriered :
    (kvCachePut (List.replicate (CHUNK_SIZE + 1) 0) [] 3600 0).map eventKind =
      [.chunkPut, .chunkPut, .basePut, .awaitK] ∧
    manifestAckBarrier [.chunkPut, .chunkPut, .basePut, .awaitK] = false := by
  constructor
  · have hlen : (List.replicate (CHUNK_SIZE + 1) 0).length = CHUNK_SIZE + 1 :=
      List.length_replicate _ _
    rw [kvCachePut_chunked_kinds (List.replicate (CHUNK_SIZE + 1) 0) [] 3600 0
      (by rw [hlen]; norm_num [MAX_SINGLE_ENTRY, CHUNK_SIZE])
      (by rw [hlen]; norm_num [MAX_KV_CACHE_SIZE, CHUNK_SIZE])]
    have hn : ((List.replicate (CHUNK_SIZE + 1) 0).length + CHUNK_SIZE - 1) / CHUNK_SIZE = 2 := by
      rw [hlen]; norm_num [CHUNK_SIZE]
    rw [hn]
    decide
  · decide

-- ── C8: Cache-Tag emission ──

def tagsDisabledConfig : CacheConfig :=
  { cacheTags := some { enabled := false, pre := some "cdn-", defaultTags := some ["dt"] },
    objectTypeConfig := fun _ => none, defaultMaxAge := 86400,
    defaultStaleWhileRevalidate := 60 }

/-- C8 counterexample: with cache tags disabled in the configuration but a
custom tag supplied via the `tags` query parameter, the built response
headers do carry a `Cache-Tag` (the custom tags are appended after the
enabled check). -/
theorem cacheTag_emitted_with_tags_disabled :
    (tagsDisabledConfig.cacheTags.map CacheTagsConfig.enabled) = some false ∧
    hget (buildResponseHeaders [] .image tagsDisabledConfig
      { etag := "e", size := 3, objectKey := "a.png", host := some "h",
        customTags := some ["custom"], bypass := false }) "Cache-Tag" = some "custom" := by
  constructor
  · rfl
  · decide

/-- C8 (amended): for inputs whose R2 headers do not already carry a
`Cache-Tag`, the built headers carry one exactly when the response is not
a bypass and the combined tag list is non-empty, where the combined list
is the generated tags (non-empty only when tags are enabled) plus the
caller's custom tags, which are appended regardless of the enabled
flag. -/
theorem cacheTag_emission_characterization
    (r2Headers : HeadersM) (t : ObjectType) (cfg : CacheConfig) (extra : HeaderExtra)
    (hClean : hget r2Headers "Cache-Tag" = none) :
    ((hget (buildResponseHeaders r2Headers t cfg extra) "Cache-Tag").isSome ↔
      (extra.bypass = false ∧
        (generateCacheTags (some t) cfg (some extra.objectKey) extra.host ≠ [] ∨
          ∃ l, extra.customTags = some l ∧ l ≠ []))) := by
  unfold buildResponseHeaders
  have hd1 : nameKey "Cache-Tag" ≠ nameKey "ETag" := by decide
  have hd2 : nameKey "Cache-Tag" ≠ nameKey "Content-Type" := by decide
  have hd3 : nameKey "Cache-Tag" ≠ nameKey "Content-Length" := by decide
  have hd4 : nameKey "Cache-Tag" ≠ nameKey "Accept-Ranges" := by decide
  have hd5 : nameKey "Cache-Tag" ≠ nameKey "X-Content-Type-Options" := by decide
  have hd6 : nameKey "Cache-Tag" ≠ nameKey "Cache-Control" := by decide
  set h1 := hset r2Headers "ETag" extra.etag with hh1
  have hc1 : hget h1 "Cache-Tag" = none := by
    rw [hh1, hget_hset_diff _ _ _ _ hd1]; exact hClean
  set h2 := if !hhas h1 "Content-Type" then
      hset h1 "Content-Type" (getContentType extra.objectKey) else h1 with hh2
  have hc2 : hget h2 "Cache-Tag" = none := by
    rw [hh2]
    by_cases hct : !hhas h1 "Content-Type"
    · rw [if_pos hct, hget_hset_diff _ _ _ _ hd2]; exact hc1
    · rw [if_neg hct]; exact hc1
  set h3 := hset h2 "Content-Length" (toString extra.size) with hh3
  have hc3 : hget h3 "Cache-Tag" = none := by
    rw [hh3, hget_hset_diff _ _ _ _ hd3]; exact hc2
  set h4 := hset h3 "Accept-Ranges" "bytes" with hh4
  have hc4 : hget h4 "Cache-Tag" = none := by
    rw [hh4, hget_hset_diff _ _ _ _ hd4]; exact hc3
  set h5 := hset h4 "X-Content-Type-Options" "nosniff" with hh5
  have hc5 : hget h5 "Cache-Tag" = none := by
    rw [hh5, hget_hset_diff _ _ _ _ hd5]; exact hc4
  by_cases hbp : extra.bypass
  · simp only [hbp, if_true]
    rw [hget_hset_diff _ _ _ _ hd6, hc5]
    simp [hbp]
  · simp only [hbp, Bool.false_eq_true, if_false]
    set h6 := hset h5 "Cache-Control" (buildCacheControl (some t) cfg) with hh6
    have hc6 : hget h6 "Cache-Tag" = none := by
      rw [hh6, hget_hset_diff _ _ _ _ hd6]; exact hc5
    set gen := generateCacheTags (some t) cfg (some extra.objectKey) extra.host with hgen
    set tags2 := (match extra.customTags with
      | some l => if l ≠ [] then gen ++ l else gen
      | none => gen) with htags2
    by_cases hne : tags2 ≠ []
    · rw [if_pos hne, hget_hset_same]
      simp only [Option.isSome_some, true_iff]
      refine ⟨by simp [hbp], ?_⟩
      by_cases hgene : gen = []
      · right
        rcases hct : extra.customTags with _ | l
        · rw [htags2, hct, hgene] at hne; simp at hne
        · refine ⟨l, rfl, ?_⟩
          intro hl
          rw [htags2, hct, hl, hgene] at hne
          simp at hne
      · left; exact hgene
    · rw [if_neg hne, hc6]
      simp only [Option.isSome_none, Bool.false_eq_true, false_iff]
      rintro ⟨-, hor⟩
      rw [not_not] at hne
      rcases hor with hgene | ⟨l, hl, hlne⟩
      · apply hgene
        rcases hct : extra.customTags with _ | l
        · rw [htags2, hct] at hne; exact hne
        · rw [htags2, hct] at hne
          by_cases hl0 : l = []
          · simpa [hl0] using hne
          · simp only [hl0, ne_eq, not_false_iff, if_true] at hne
            exact (List.append_eq_nil.mp hne).1
      · rw [htags2, hl] at hne
        simp only [hlne, ne_eq, not_false_iff, if_true] at hne
        exact hlne (List.append_eq_nil.mp hne).2

def tagsEnabledConfig : CacheConfig :=
  { cacheTags := some { enabled := true, pre := some "cdn-", defaultTags := none },
    objectTypeConfig := fun _ => none, defaultMaxAge := 86400,
    defaultStaleWhileRevalidate := 60 }

theorem cacheTag_emission_characterization_witness :
    hget ([] : HeadersM) "Cache-Tag" = none ∧
    ((hget (buildResponseHeaders [] .image tagsEnabledConfig
        { etag := "e", size := 3, objectKey := "a.png", host := some "h",
          customTags := none, bypass := false }) "Cache-Tag").isSome ↔
      (false = false ∧
        (generateCacheTags (some .image) tagsEnabledConfig (some "a.png") (some "h") ≠ [] ∨
          ∃ l, (none : Option (List String)) = some l ∧ l ≠ []))) :=
  ⟨by decide,
    cacheTag_emission_characterization [] .image tagsEnabledConfig
      { etag := "e", size := 3, objectKey := "a.png", host := some "h",
        customTags := none, bypass := false } (by decide)⟩

-- ── C5 and C6: the object service's cache writes and unparseable ranges ──

theorem string_eq_of_data (s t : String) (h : s.data = t.data) : s = t := by
  cases s; cases t; exact congrArg String.mk h

/-- A cache write carries a full 200 copy of the bucket object: an
edge-cache put must be a status-200 response whose body is exactly the
object's bytes, and a KV stream write must receive exactly the object's
bytes with the object's size. -/
def writesFullObject (o : Option R2Obj) : CacheEvent → Bool
  | .cacheApiPut status _ body =>
    match o with
    | some obj => status == 200 && body == obj.bytes
    | none => false
  | .kvPutStream body totalSize _ _ =>
    match o with
    | some obj => body == obj.bytes && totalSize == obj.bytes.length
    | none => false

set_option maxHeartbeats 2000000 in
/-- C5: in every execution of the R2-binding object service, every cache
write (either tier) is a full-object 200 write: a 206/partial body is
never stored.  On a Range request the partial body goes only to the
client, and the background populate refetches and stores the full
object. -/
theorem no_partial_response_cached (req : ServiceRequest) (sctx : ServiceCtx) :
    ((getObjectViaR2 req sctx).2).all (writesFullObject sctx.obj) = true := by
  unfold getObjectViaR2 cacheFullFromR2
  repeat' split
  all_goals first
    | rfl
    | (simp_all [writesFullObject]; done)
    | (simp_all only [List.all_eq_true]
       intro x hx
       repeat' split at hx
       all_goals simp_all [writesFullObject])

def unparseableRangeReq : ServiceRequest :=
  { rangeHeader := some "foo", hasConditional := false, methodGET := true, host := "h" }

def sampleObj : R2Obj :=
  { bytes := [0, 1, 2, 3, 4, 5, 6, 7, 8, 9], httpEtag := "e",
    httpHeaders := [("Content-Type", "application/octet-stream")] }

def sampleCtx : ServiceCtx :=
  { obj := some sampleObj, transportError := false, fullGetError := false,
    condNotModified := false, kvCacheAvailable := false, bypassCache := false,
    cacheConfig := tagsEnabledConfig, key := "x.bin", customTags := none }

/-- C6 counterexample: for the unparseable Range header `foo` against a
ten-byte object, the service responds 206 with a Content-Range header —
not the claimed 200 without Content-Range.  `parseRangeHeader` maps the
bad header to the R2 range `{offset: 0}`, R2 echoes the range, and the
range branch fires. -/
theorem unparseable_range_returns_206 :
    rangeRegexMatch "foo" = none ∧
    (getObjectViaR2 unparseableRangeReq sampleCtx).1.status = 206 ∧
    hget (getObjectViaR2 unparseableRangeReq sampleCtx).1.headers "Content-Range" =
      some "bytes 0-9/10" := by
  refine ⟨by decide, by decide, by decide⟩

/-- C6 (amended): a non-empty Range header that does not match the
single-range grammar is forwarded to R2 as `{offset: 0}`, so the client
receives a 206 whose body is the full object from offset 0, with
`Content-Range: bytes 0-(T-1)/T` and `Content-Length: T` — not a 200
without Content-Range.  (An absent or empty Range header still yields the
200 full-body path.) -/
theorem unparseable_range_full_body_206
    (req : ServiceRequest) (sctx : ServiceCtx) (h : String) (obj : R2Obj)
    (hrh : req.rangeHeader = some h) (hne : h.isEmpty = false)
    (hbad : rangeRegexMatch h = none)
    (hte : sctx.transportError = false) (hobj : sctx.obj = some obj)
    (hcond : req.hasConditional = false) :
    (getObjectViaR2 req sctx).1.status = 206 ∧
    (getObjectViaR2 req sctx).1.body = some obj.bytes ∧
    hget (getObjectViaR2 req sctx).1.headers "Content-Range" =
      some ("bytes 0-" ++ ((obj.bytes.length : Int) - 1).repr ++ "/" ++
        toString obj.bytes.length) ∧
    hget (getObjectViaR2 req sctx).1.headers "Content-Length" =
      some (toString obj.bytes.length) := by
  have htruthy : jsTruthyStr req.rangeHeader = true := by
    rw [hrh]; simp [jsTruthyStr, hne]
  have hparse : parseRangeHeader h = .offsetOnly (some 0) := by
    unfold parseRangeHeader; rw [hbad]
  unfold getObjectViaR2
  rw [if_pos htruthy, hrh]
  simp only [Option.getD_some, hparse]
  rw [if_neg (by simp [hte])]
  rw [hobj]
  have happ : r2ApplyRange obj.bytes (some (.offsetOnly (some 0))) = some obj.bytes := by
    simp [r2ApplyRange]
  simp only [happ]
  rw [if_neg (by simp [hcond])]
  have hd : nameKey "Content-Range" ≠ nameKey "Content-Length" := by decide
  have hcr : buildContentRange (.offsetOnly (some 0)) obj.bytes.length =
      "bytes 0-" ++ ((obj.bytes.length : Int) - 1).repr ++ "/" ++ toString obj.bytes.length := by
    unfold buildContentRange
    rfl
  have hcl : jsNumStr (rangeLengthR2 (.offsetOnly (some 0)) obj.bytes.length) =
      toString obj.bytes.length := by
    dsimp [rangeLengthR2, jsNumStr]
    rw [Int.sub_zero]
    rfl
  refine ⟨rfl, rfl, ?_, ?_⟩
  · dsimp only
    rw [hget_hset_diff _ _ _ _ hd]
    rw [hget_hset_same, hcr]
  · dsimp only
    rw [hget_hset_same, hcl]

theorem unparseable_range_full_body_206_witness :
    unparseableRangeReq.rangeHeader = some "foo" ∧
    (getObjectViaR2 unparseableRangeReq sampleCtx).1.status = 206 ∧
    (getObjectViaR2 unparseableRangeReq sampleCtx).1.body = some sampleObj.bytes ∧
    hget (getObjectViaR2 unparseableRangeReq sampleCtx).1.headers "Content-Range" =
      some ("bytes 0-" ++ ((sampleObj.bytes.length : Int) - 1).repr ++ "/" ++
        toString sampleObj.bytes.length) ∧
    hget (getObjectViaR2 unparseableRangeReq sampleCtx).1.headers "Content-Length" =
      some (toString sampleObj.bytes.length) :=
  ⟨rfl,
    (unparseable_range_full_body_206 unparseableRangeReq sampleCtx "foo" sampleObj
      rfl (by decide) (by decide) rfl rfl rfl).1,
    (unparseable_range_full_body_206 unparseableRangeReq sampleCtx "foo" sampleObj
      rfl (by decide) (by decide) rfl rfl rfl).2.1,
    (unparseable_range_full_body_206 unparseableRangeReq sampleCtx "foo" sampleObj
      rfl (by decide) (by decide) rfl rfl rfl).2.2.1,
    (unparseable_range_full_body_206 unparseableRangeReq sampleCtx "foo" sampleObj
      rfl (by decide) (by decide) rfl rfl rfl).2.2.2⟩

-- ── C2: layout invariants of the chunked writes ──

theorem fillChunks_spec : ∀ (N : Nat) (value fill : List Nat), value.length ≤ N →
    fill.length < CHUNK_SIZE →
    (∀ c ∈ (fillChunks fill value).1, c.length = CHUNK_SIZE) ∧
    (fillChunks fill value).1.flatten ++ (fillChunks fill value).2 = fill ++ value ∧
    (fillChunks fill value).2.length < CHUNK_SIZE := by
  intro N
  induction N with
  | zero =>
    intro value fill hlen hfill
    have hv : value = [] := List.eq_nil_of_length_eq_zero (Nat.le_zero.mp hlen)
    subst hv
    rw [fillChunks]
    simp [hfill]
  | succ n ih =>
    intro value fill hlen hfill
    rw [fillChunks]
    by_cases hv : value = []
    · simp [hv, hfill]
    · rw [dif_neg hv]
      have hvpos : 0 < value.length := List.length_pos.mpr hv
      have htc0 : ¬ (min (CHUNK_SIZE - fill.length) value.length = 0) := by omega
      rw [dif_neg htc0]
      set toCopy := min (CHUNK_SIZE - fill.length) value.length with htc
      have htcpos : 0 < toCopy := by omega
      have htclen : toCopy ≤ value.length := by omega
      have hrest : (value.drop toCopy).length ≤ n := by
        rw [List.length_drop]; omega
      have hfill2len : (fill ++ value.take toCopy).length = fill.length + toCopy := by
        rw [List.length_append, List.length_take]; omega
      by_cases hfull : (fill ++ value.take toCopy).length = CHUNK_SIZE
      · rw [if_pos hfull]
        obtain ⟨ha, hb, hc⟩ := ih (value.drop toCopy) [] hrest (by norm_num [CHUNK_SIZE])
        refine ⟨?_, ?_, hc⟩
        · intro c hcmem
          rcases List.mem_cons.mp hcmem with hcl | hcr
          · rw [hcl]; exact hfull
          · exact ha c hcr
        · simp only [List.flatten_cons, List.append_assoc]
          rw [hb]
          simp [List.take_append_drop]
      · rw [if_neg hfull]
        have hfill2 : (fill ++ value.take toCopy).length < CHUNK_SIZE := by omega
        obtain ⟨ha, hb, hc⟩ := ih (value.drop toCopy) (fill ++ value.take toCopy) hrest hfill2
        refine ⟨ha, ?_, hc⟩
        rw [hb, List.append_assoc, List.take_append_drop]

theorem streamChunkLoop_spec : ∀ (frags : List (List Nat)) (fill : List Nat),
    fill.length < CHUNK_SIZE →
    (∀ c ∈ (streamChunkLoop fill frags).1, c.length = CHUNK_SIZE) ∧
    (streamChunkLoop fill frags).1.flatten ++ (streamChunkLoop fill frags).2 =
      fill ++ frags.flatten ∧
    (streamChunkLoop fill frags).2.length < CHUNK_SIZE := by
  intro frags
  induction frags with
  | nil =>
    intro fill hfill
    simp [streamChunkLoop, hfill]
  | cons v vs ih =>
    intro fill hfill
    obtain ⟨ha, hb, hc⟩ := fillChunks_spec v.length v fill (le_refl _) hfill
    obtain ⟨ha2, hb2, hc2⟩ := ih (fillChunks fill v).2 hc
    unfold streamChunkLoop
    refine ⟨?_, ?_, hc2⟩
    · intro c hcmem
      rcases List.mem_append.mp hcmem with hcl | hcr
      · exact ha c hcl
      · exact ha2 c hcr
    · simp only [List.flatten_append, List.append_assoc]
      rw [hb2, ← List.append_assoc, hb, List.flatten_cons, List.append_assoc]

/-- The chunk list both chunked write paths produce: `⌈len/CHUNK_SIZE⌉`
consecutive `CHUNK_SIZE`-wide slices of the source (the last one
shorter). -/
def canonChunks (src : List Nat) : List (List Nat) :=
  (List.range ((src.length + CHUNK_SIZE - 1) / CHUNK_SIZE)).map
    (fun i => (src.drop (i * CHUNK_SIZE)).take CHUNK_SIZE)

theorem canon_take (src : List Nat) : ∀ n : Nat,
    ((List.range n).map (fun i => (src.drop (i * CHUNK_SIZE)).take CHUNK_SIZE)).flatten =
      src.take (n * CHUNK_SIZE) := by
  intro n
  induction n with
  | zero => simp
  | succ m ih =>
    rw [List.range_succ, List.map_append, List.flatten_append, ih]
    simp only [List.map_cons, List.map_nil, List.flatten_cons, List.flatten_nil,
      List.append_nil]
    rw [Nat.succ_mul, List.take_add]

theorem canonChunks_flatten (src : List Nat) : (canonChunks src).flatten = src := by
  unfold canonChunks
  rw [canon_take]
  apply List.take_of_length_le
  have hcs : CHUNK_SIZE = 20971520 := by norm_num [CHUNK_SIZE]
  rw [hcs]
  omega

theorem flatten_get_uniform : ∀ (cs : List (List Nat)) (src : List Nat),
    cs.flatten = src → (∀ c ∈ cs, c.length = CHUNK_SIZE) →
    ∀ (k : Nat) (c : List Nat), cs[k]? = some c →
      c = (src.drop (k * CHUNK_SIZE)).take CHUNK_SIZE := by
  intro cs
  induction cs with
  | nil =>
    intro src _ _ k c hk
    simp at hk
  | cons c0 rest ih =>
    intro src hflat hall k c hk
    have h0 : c0.length = CHUNK_SIZE := hall c0 (by simp)
    cases k with
    | zero =>
      rw [List.getElem?_cons_zero, Option.some_inj] at hk
      subst hk
      rw [← hflat, List.flatten_cons, Nat.zero_mul, List.drop_zero, ← h0, List.take_left]
    | succ m =>
      rw [List.getElem?_cons_succ] at hk
      have hrest := ih rest.flatten rfl (fun c hc => hall c (List.mem_cons_of_mem _ hc)) m c hk
      have hsm : (m + 1) * CHUNK_SIZE = c0.length + m * CHUNK_SIZE := by rw [h0]; ring
      have hdrop : (c0 ++ rest.flatten).drop ((m + 1) * CHUNK_SIZE) =
          rest.flatten.drop (m * CHUNK_SIZE) := by
        rw [hsm]
        exact List.drop_append (m * CHUNK_SIZE)
      rw [hrest, ← hflat, List.flatten_cons, hdrop]

theorem streamChunks_eq (frags : List (List Nat)) :
    (if (streamChunkLoop [] frags).2 ≠ [] then
      (streamChunkLoop [] frags).1 ++ [(streamChunkLoop [] frags).2]
    else (streamChunkLoop [] frags).1) = canonChunks frags.flatten := by
  obtain ⟨hall, hflat, hlt⟩ := streamChunkLoop_spec frags [] (by norm_num [CHUNK_SIZE])
  rw [List.nil_append] at hflat
  set full := (streamChunkLoop [] frags).1 with hfull
  set f := (streamChunkLoop [] frags).2 with hf2
  set src := frags.flatten with hsrc
  have hcs : CHUNK_SIZE = 20971520 := by norm_num [CHUNK_SIZE]
  have hfull_len : full.flatten.length = full.length * CHUNK_SIZE := by
    rw [List.length_flatten]
    have hrep : full.map List.length = List.replicate full.length CHUNK_SIZE := by
      rw [List.eq_replicate]
      refine ⟨by simp, ?_⟩
      intro b hb
      rcases List.mem_map.mp hb with ⟨c, hc, hcb⟩
      rw [← hcb]; exact hall c hc
    rw [hrep, List.sum_replicate, smul_eq_mul]
  have hsrc_len : src.length = full.length * CHUNK_SIZE + f.length := by
    rw [← hflat, List.length_append, hfull_len]
  by_cases hf : f = []
  · rw [if_neg (by simp [hf])]
    have hfl0 : f.length = 0 := by rw [hf]; rfl
    have hn : (src.length + CHUNK_SIZE - 1) / CHUNK_SIZE = full.length := by
      rw [hcs] at hsrc_len ⊢
      omega
    have hflatsrc : full.flatten = src := by
      rw [← hflat, hf, List.append_nil]
    apply List.ext_getElem?
    intro i
    unfold canonChunks
    rw [hn, List.getElem?_map]
    by_cases hi : i < full.length
    · rw [List.getElem?_range hi]
      cases hgi : full[i]? with
      | none =>
        exact absurd (List.getElem?_eq_none_iff.mp hgi) (by omega)
      | some c =>
        dsimp only [Option.map]
        rw [flatten_get_uniform full src hflatsrc hall i c hgi]
    · have h1 : full[i]? = none := List.getElem?_eq_none (by omega)
      have h2 : (List.range full.length)[i]? = none :=
        List.getElem?_eq_none (by simp only [List.length_range]; omega)
      rw [h1, h2]
      rfl
  · rw [if_pos hf]
    have hfpos : 0 < f.length := List.length_pos.mpr hf
    have hn : (src.length + CHUNK_SIZE - 1) / CHUNK_SIZE = full.length + 1 := by
      rw [hcs] at hsrc_len hlt ⊢
      omega
    apply List.ext_getElem?
    intro i
    unfold canonChunks
    rw [hn, List.getElem?_map]
    rcases Nat.lt_trichotomy i full.length with hi | hi | hi
    · rw [List.getElem?_append_left hi, List.getElem?_range (by omega)]
      cases hgi : full[i]? with
      | none =>
        exact absurd (List.getElem?_eq_none_iff.mp hgi) (by omega)
      | some c =>
        dsimp only [Option.map]
        have hc := flatten_get_uniform full full.flatten rfl hall i c hgi
        have hd1 : i * CHUNK_SIZE ≤ full.flatten.length := by
          rw [hfull_len, hcs] at *
          omega
        have hd2 : CHUNK_SIZE ≤ (full.flatten.drop (i * CHUNK_SIZE)).length := by
          rw [List.length_drop, hfull_len, hcs] at *
          omega
        have key : (src.drop (i * CHUNK_SIZE)).take CHUNK_SIZE =
            (full.flatten.drop (i * CHUNK_SIZE)).take CHUNK_SIZE := by
          rw [← hflat, List.drop_append_of_le_length hd1,
            List.take_append_of_le_length hd2]
        rw [key, ← hc]
    · rw [List.getElem?_append_right (by omega), List.getElem?_range (by omega)]
      have hi0 : i - full.length = 0 := by omega
      rw [hi0, List.getElem?_cons_zero]
      dsimp only [Option.map]
      rw [Option.some_inj]
      have hdrop : src.drop (i * CHUNK_SIZE) = f := by
        rw [← hflat, hi, ← hfull_len, List.drop_left]
      rw [hdrop, List.take_of_length_le hlt.le]
    · have hlen2 : (full ++ [f]).length = full.length + 1 := by simp
      have h1 : (full ++ [f])[i]? = none := List.getElem?_eq_none (by rw [hlen2]; omega)
      have h2 : (List.range (full.length + 1))[i]? = none :=
        List.getElem?_eq_none (by rw [List.length_range]; omega)
      rw [h1, h2]
      rfl

theorem kvCachePut_slices_eq (body : List Nat) (n : Nat) :
    (List.range n).map (fun i =>
      jsSlice body ((i * CHUNK_SIZE : Nat) : Int)
        ((min ((i + 1) * CHUNK_SIZE) body.length : Nat) : Int)) =
    (List.range n).map (fun i => (body.drop (i * CHUNK_SIZE)).take CHUNK_SIZE) := by
  apply List.map_congr_left
  intro i _
  unfold jsSlice resolveSliceIdx
  rw [if_neg (not_lt.mpr (Int.natCast_nonneg _)), if_neg (not_lt.mpr (Int.natCast_nonneg _)),
    Int.toNat_natCast, Int.toNat_natCast]
  have hmm : min (min ((i + 1) * CHUNK_SIZE) body.length) body.length =
      min ((i + 1) * CHUNK_SIZE) body.length := by omega
  rw [hmm]
  have hcs : CHUNK_SIZE = 20971520 := by norm_num [CHUNK_SIZE]
  by_cases hil : i * CHUNK_SIZE ≤ body.length
  · rw [min_eq_left hil, List.drop_take]
    apply List.take_eq_take.mpr
    rw [List.length_drop, hcs] at *
    omega
  · have hlen : body.length ≤ i * CHUNK_SIZE := le_of_not_le hil
    rw [min_eq_right hlen]
    have ha : (body.take (min ((i + 1) * CHUNK_SIZE) body.length)).drop body.length = [] :=
      List.drop_eq_nil_of_le (by rw [List.length_take, hcs] at *; omega)
    have hb : body.drop (i * CHUNK_SIZE) = [] := List.drop_eq_nil_of_le hlen
    rw [ha, hb, List.take_nil]

/-- C2: for a chunked write (`SINGLE_ENTRY_MAX < total ≤ TOTAL_MAX`), both
`kvCachePutStream` (on any fragmentation of the source that yields exactly
`totalSize` bytes) and `kvCachePut` (on the buffered source) store the
canonical chunk sequence: `⌈total/CHUNK_SIZE⌉` chunks whose sizes sum to
`total` (equal to the metadata's content length), every chunk but the last
exactly `CHUNK_SIZE`, the last in `(0, CHUNK_SIZE]`, chunk `i` holding the
source bytes at offsets `[i·CHUNK_SIZE, i·CHUNK_SIZE + size_i)`, and the
concatenation of the chunks is byte-identical to the source. -/
theorem chunked_write_layout
    (frags : List (List Nat)) (totalSize : Nat) (headers : HeadersM) (maxAge : Nat)
    (now : Int) (hlen : frags.flatten.length = totalSize)
    (h1 : MAX_SINGLE_ENTRY < totalSize) (h2 : totalSize ≤ MAX_KV_CACHE_SIZE) :
    ∃ manifest mdata ttl,
      kvCachePutStream frags totalSize headers maxAge now =
          (canonChunks frags.flatten).enum.map (fun q => KVEvent.putChunk q.1 q.2 ttl) ++
            [.putBase (.manifestVal manifest) mdata ttl, .awaitAll] ∧
      kvCachePut frags.flatten headers maxAge now =
          (canonChunks frags.flatten).enum.map (fun q => KVEvent.putChunk q.1 q.2 ttl) ++
            [.putBase (.manifestVal manifest) mdata ttl, .awaitAll] ∧
      manifest.chunkCount = (totalSize + CHUNK_SIZE - 1) / CHUNK_SIZE ∧
      manifest.chunkSizes = (canonChunks frags.flatten).map List.length ∧
      manifest.chunkSizes.sum = totalSize ∧
      manifest.totalSize = totalSize ∧
      mdata.contentLength = totalSize ∧
      mdata.isChunked = true ∧
      (canonChunks frags.flatten).flatten = frags.flatten ∧
      (∀ s ∈ manifest.chunkSizes.dropLast, s = CHUNK_SIZE) ∧
      (∃ lastSz, manifest.chunkSizes.getLast? = some lastSz ∧ 0 < lastSz ∧
        lastSz ≤ CHUNK_SIZE) ∧
      (∀ (i sz : Nat), manifest.chunkSizes[i]? = some sz →
        (canonChunks frags.flatten)[i]? =
          some ((frags.flatten.drop (i * CHUNK_SIZE)).take sz)) := by
  have hcs : CHUNK_SIZE = 20971520 := by norm_num [CHUNK_SIZE]
  have hmse : MAX_SINGLE_ENTRY = 20971520 := by norm_num [MAX_SINGLE_ENTRY]
  have hdec : decide (totalSize > MAX_SINGLE_ENTRY) = true := by simp [h1]
  have hcanonlen : (canonChunks frags.flatten).length =
      (totalSize + CHUNK_SIZE - 1) / CHUNK_SIZE := by
    unfold canonChunks
    rw [List.length_map, List.length_range, hlen]
  have hsizes : (canonChunks frags.flatten).map List.length =
      (List.range ((totalSize + CHUNK_SIZE - 1) / CHUNK_SIZE)).map
        (fun i => min CHUNK_SIZE (totalSize - i * CHUNK_SIZE)) := by
    unfold canonChunks
    rw [hlen, List.map_map]
    apply List.map_congr_left
    intro i _
    simp [Function.comp, List.length_take, List.length_drop, hlen]
  have hn1 : 1 ≤ (totalSize + CHUNK_SIZE - 1) / CHUNK_SIZE := by
    rw [hcs]
    omega
  obtain ⟨m, hm⟩ : ∃ m, (totalSize + CHUNK_SIZE - 1) / CHUNK_SIZE = m + 1 :=
    ⟨(totalSize + CHUNK_SIZE - 1) / CHUNK_SIZE - 1, by omega⟩
  have hbounds : m * CHUNK_SIZE < totalSize ∧ totalSize ≤ (m + 1) * CHUNK_SIZE := by
    rw [hcs] at hm ⊢
    omega
  refine ⟨⟨totalSize, (totalSize + CHUNK_SIZE - 1) / CHUNK_SIZE,
      (canonChunks frags.flatten).map List.length⟩,
    mkWriteMetadata headers totalSize true now maxAge,
    max MIN_EXPIRATION_TTL maxAge, ?_, ?_, rfl, rfl, ?_, rfl, rfl, rfl,
    canonChunks_flatten _, ?_, ?_, ?_⟩
  · -- streaming write
    unfold kvCachePutStream
    rw [if_neg (by omega)]
    simp only [hdec, Bool.not_true, Bool.false_eq_true, if_false]
    rw [streamChunks_eq, hcanonlen]
  · -- buffered write
    unfold kvCachePut
    dsimp only
    rw [kvCachePut_slices_eq]
    have hfold : (List.range ((frags.flatten.length + CHUNK_SIZE - 1) / CHUNK_SIZE)).map
        (fun i => (frags.flatten.drop (i * CHUNK_SIZE)).take CHUNK_SIZE) =
        canonChunks frags.flatten := rfl
    rw [hfold, hlen]
    rw [if_neg (by omega)]
    simp only [hdec, Bool.not_true, Bool.false_eq_true, if_false]
    have hic : (mkWriteMetadata headers totalSize true now maxAge).isChunked = true := rfl
    rw [hic]
    simp only [Bool.not_true, Bool.false_eq_true, if_false]
  · -- sizes sum to the total
    rw [← List.length_flatten, canonChunks_flatten, hlen]
  · -- all chunk sizes but the last equal CHUNK_SIZE
    intro s hs
    rw [hsizes, hm, List.range_succ, List.map_append, List.map_cons, List.map_nil,
      List.dropLast_concat] at hs
    rcases List.mem_map.mp hs with ⟨i, hi, hgi⟩
    rw [List.mem_range] at hi
    rw [← hgi, hcs] at *
    omega
  · -- last chunk size in (0, CHUNK_SIZE]
    refine ⟨min CHUNK_SIZE (totalSize - m * CHUNK_SIZE), ?_, ?_, ?_⟩
    · rw [hsizes, hm, List.range_succ, List.map_append, List.map_cons, List.map_nil,
        List.getLast?_concat]
    · rw [hcs] at *
      omega
    · omega
  · -- per-chunk bytes are the matching source slice
    intro i sz hsz
    rw [hsizes, List.getElem?_map] at hsz
    cases hri : (List.range ((totalSize + CHUNK_SIZE - 1) / CHUNK_SIZE))[i]? with
    | none => rw [hri] at hsz; simp at hsz
    | some j =>
      have hij : j = i := by
        rcases List.getElem?_eq_some_iff.mp hri with ⟨hlt2, hv⟩
        simp only [List.getElem_range] at hv
        exact hv.symm
      rw [hri] at hsz
      dsimp only [Option.map] at hsz
      rw [Option.some_inj, hij] at hsz
      have hilt : i < (totalSize + CHUNK_SIZE - 1) / CHUNK_SIZE := by
        rcases List.getElem?_eq_some_iff.mp hri with ⟨hlt2, -⟩
        simpa [List.length_range] using hlt2
      unfold canonChunks
      have hilt2 : i < (frags.flatten.length + CHUNK_SIZE - 1) / CHUNK_SIZE := by
        rw [hlen]; exact hilt
      rw [List.getElem?_map, List.getElem?_range hilt2]
      dsimp only [Option.map]
      rw [Option.some_inj]
      apply List.take_eq_take.mpr
      rw [List.length_drop, hlen, ← hsz]
      omega

theorem chunked_write_layout_witness :
    ([List.replicate (CHUNK_SIZE + 1) 0] : List (List Nat)).flatten.length = CHUNK_SIZE + 1 ∧
    MAX_SINGLE_ENTRY < CHUNK_SIZE + 1 ∧
    CHUNK_SIZE + 1 ≤ MAX_KV_CACHE_SIZE ∧
    (∃ manifest mdata ttl,
      kvCachePutStream [List.replicate (CHUNK_SIZE + 1) 0] (CHUNK_SIZE + 1) [] 3600 0 =
          (canonChunks ([List.replicate (CHUNK_SIZE + 1) 0] : List (List Nat)).flatten).enum.map
            (fun q => KVEvent.putChunk q.1 q.2 ttl) ++
            [.putBase (.manifestVal manifest) mdata ttl, .awaitAll] ∧
      kvCachePut ([List.replicate (CHUNK_SIZE + 1) 0] : List (List Nat)).flatten [] 3600 0 =
          (canonChunks ([List.replicate (CHUNK_SIZE + 1) 0] : List (List Nat)).flatten).enum.map
            (fun q => KVEvent.putChunk q.1 q.2 ttl) ++
            [.putBase (.manifestVal manifest) mdata ttl, .awaitAll] ∧
      manifest.chunkCount = (CHUNK_SIZE + 1 + CHUNK_SIZE - 1) / CHUNK_SIZE ∧
      manifest.chunkSizes =
        (canonChunks ([List.replicate (CHUNK_SIZE + 1) 0] : List (List Nat)).flatten).map
          List.length ∧
      manifest.chunkSizes.sum = CHUNK_SIZE + 1 ∧
      manifest.totalSize = CHUNK_SIZE + 1 ∧
      mdata.contentLength = CHUNK_SIZE + 1 ∧
      mdata.isChunked = true ∧
      (canonChunks ([List.replicate (CHUNK_SIZE + 1) 0] : List (List Nat)).flatten).flatten =
        ([List.replicate (CHUNK_SIZE + 1) 0] : List (List Nat)).flatten ∧
      (∀ s ∈ manifest.chunkSizes.dropLast, s = CHUNK_SIZE) ∧
      (∃ lastSz, manifest.chunkSizes.getLast? = some lastSz ∧ 0 < lastSz ∧
        lastSz ≤ CHUNK_SIZE) ∧
      (∀ (i sz : Nat), manifest.chunkSizes[i]? = some sz →
        (canonChunks ([List.replicate (CHUNK_SIZE + 1) 0] : List (List Nat)).flatten)[i]? =
          some ((([List.replicate (CHUNK_SIZE + 1) 0] : List (List Nat)).flatten.drop
            (i * CHUNK_SIZE)).take sz))) :=
  ⟨by simp, by norm_num [MAX_SINGLE_ENTRY, CHUNK_SIZE],
    by norm_num [MAX_KV_CACHE_SIZE, CHUNK_SIZE],
    chunked_write_layout [List.replicate (CHUNK_SIZE + 1) 0] (CHUNK_SIZE + 1) [] 3600 0
      (by simp) (by norm_num [MAX_SINGLE_ENTRY, CHUNK_SIZE])
      (by norm_num [MAX_KV_CACHE_SIZE, CHUNK_SIZE])⟩

-- ── C1: range reads from the KV cache ──

theorem drop_drop_add (l : List Nat) (m n : Nat) : (l.drop m).drop n = l.drop (m + n) := by
  rw [List.drop_drop, Nat.add_comm]

theorem jsSlice_nonneg (l : List Nat) (s e : Int) (hs : 0 ≤ s) (he : 0 ≤ e) :
    jsSlice l s e = (l.take e.toNat).drop s.toNat := by
  unfold jsSlice resolveSliceIdx
  rw [if_neg (not_lt.mpr hs), if_neg (not_lt.mpr he)]
  by_cases hsl : s.toNat ≤ l.length
  · rw [min_eq_left hsl]
    have ht : l.take (min e.toNat l.length) = l.take e.toNat :=
      List.take_eq_take.mpr (by omega)
    rw [ht]
  · have h1 : (l.take (min e.toNat l.length)).drop (min s.toNat l.length) = [] :=
      List.drop_eq_nil_of_le (by rw [List.length_take]; omega)
    have h2 : (l.take e.toNat).drop s.toNat = [] :=
      List.drop_eq_nil_of_le (by rw [List.length_take]; omega)
    rw [h1, h2]

theorem stringNonEmpty_of_data (s : String) (h : s.data ≠ []) : s.isEmpty = false := by
  rw [Bool.eq_false_iff]
  intro hc
  rw [String.isEmpty_iff s] at hc
  subst hc
  exact h rfl

/-- `parseRange` on an explicit `bytes=a-b` header satisfiable against
`T`: start `a`, end `min b (T-1)`. -/
theorem parseRange_explicit (rh : String) (sa sb : List Char) (a b T : Nat)
    (hm : rangeRegexMatch rh = some (sa, sb)) (hsa : sa ≠ [])
    (ha : jsParseDigits sa = some a) (hb : jsParseDigits sb = some b)
    (haT : a < T) (hab : a ≤ b) :
    parseRange rh (T : Int) =
      some { start := some (a : Int), stop := ((min b (T - 1) : Nat) : Int) } := by
  unfold parseRange
  rw [hm]
  have hcond : ¬(sa = [] ∧ sb ≠ []) := fun hcon => hsa hcon.1
  simp only [if_neg hcond, hb, ha]
  rw [if_neg (by omega)]
  rw [Option.some_inj, JSRange.mk.injEq]
  refine ⟨rfl, ?_⟩
  have hT1 : ((T - 1 : Nat) : Int) = (T : Int) - 1 := by omega
  rw [Nat.cast_min, hT1]

theorem chunkedRangeLoop_correct
    (getChunk : Nat → Option (List Nat)) (src : List Nat) (a e : Nat)
    (hae : a ≤ e) (he : e < src.length) :
    ∀ (chunks : List (List Nat)) (i0 pos : Nat) (acc : List Nat),
      (∀ (k : Nat) (c : List Nat), chunks[k]? = some c → getChunk (i0 + k) = some c) →
      chunks.flatten = src.drop pos →
      acc = (src.drop a).take (min pos (e + 1) - a) →
      chunkedRangeLoop getChunk (some (a : Int)) (e : Int) (some ((e : Int) - (a : Int) + 1))
          (chunks.map (fun c => (c.length : Int))) i0 (pos : Int) acc.length acc =
        some ((src.drop a).take (e + 1 - a)) := by
  intro chunks
  induction chunks with
  | nil =>
    intro i0 pos acc hch hflat hacc
    have hpos : src.length ≤ pos := by
      have h0 : (src.drop pos).length = 0 := by rw [← hflat]; rfl
      rw [List.length_drop] at h0
      omega
    simp only [List.map_nil, chunkedRangeLoop]
    rw [hacc, show min pos (e + 1) = e + 1 by omega]
  | cons c rest ih =>
    intro i0 pos acc hch hflat hacc
    have hsplit : c ++ rest.flatten = src.drop pos := by
      rw [← hflat]; rfl
    have hrest_flat : rest.flatten = src.drop (pos + c.length) := by
      rw [← drop_drop_add, ← hsplit, List.drop_left]
    have hch' : ∀ (k : Nat) (c' : List Nat), rest[k]? = some c' →
        getChunk (i0 + 1 + k) = some c' := by
      intro k c' hk
      have h := hch (k + 1) c' (by simpa using hk)
      rwa [show i0 + (k + 1) = i0 + 1 + k by omega] at h
    have hacclen : acc.length = min pos (e + 1) - a := by
      rw [hacc, List.length_take, List.length_drop]
      omega
    simp only [List.map_cons, chunkedRangeLoop]
    by_cases hpe : e + 1 ≤ pos
    · have hguard : jsNatLtNum acc.length (some ((e : Int) - (a : Int) + 1)) = false := by
        unfold jsNatLtNum
        rw [hacclen]
        simp only [decide_eq_false_iff_not, not_lt]
        push_cast
        omega
      rw [hguard]
      simp only [Bool.false_eq_true, if_false]
      rw [hacc, show min pos (e + 1) = e + 1 by omega]
    · have hppos : pos ≤ e := by omega
      have hguard : jsNatLtNum acc.length (some ((e : Int) - (a : Int) + 1)) = true := by
        unfold jsNatLtNum
        rw [hacclen]
        simp only [decide_eq_true_eq]
        push_cast
        omega
      rw [hguard, if_pos rfl]
      have hcast : (pos : Int) + (c.length : Int) = ((pos + c.length : Nat) : Int) := by
        push_cast; ring
      by_cases hov : (pos : Int) + (c.length : Int) - 1 ≥ (a : Int) ∧ (pos : Int) ≤ (e : Int)
      · rw [if_pos hov]
        have hg0 : getChunk i0 = some c := by
          have h := hch 0 c (by simp)
          simpa using h
        simp only [hg0]
        have halt : a < pos + c.length := by
          have h1 := hov.1
          omega
        have hc_pref : c = (src.drop pos).take c.length := by
          rw [← hsplit, List.take_left]
        obtain ⟨n, hn⟩ : ∃ n, c.length = n := ⟨c.length, rfl⟩
        have hslice : jsSlice c (max 0 ((a : Int) - (pos : Int)))
            (min (c.length : Int) ((e : Int) - (pos : Int) + 1)) =
            (src.drop (max pos a)).take (min (pos + c.length) (e + 1) - max pos a) := by
          rw [jsSlice_nonneg _ _ _ (le_max_left _ _) (by omega)]
          rw [show (max 0 ((a : Int) - (pos : Int))).toNat = a - pos by omega]
          rw [show (min (c.length : Int) ((e : Int) - (pos : Int) + 1)).toNat =
            min c.length (e + 1 - pos) by omega]
          rw [hn] at hc_pref ⊢
          rw [hc_pref, List.take_take,
            show min (min n (e + 1 - pos)) n = min n (e + 1 - pos) by omega]
          rw [List.drop_take, drop_drop_add]
          rw [show pos + (a - pos) = max pos a by omega]
          rw [show min n (e + 1 - pos) - (a - pos) =
            min (pos + n) (e + 1) - max pos a by omega]
        have hacc_new : acc ++ jsSlice c (max 0 ((a : Int) - (pos : Int)))
            (min (c.length : Int) ((e : Int) - (pos : Int) + 1)) =
            (src.drop a).take (min (pos + c.length) (e + 1) - a) := by
          rw [hslice, hacc]
          by_cases hap : a ≤ pos
          · rw [show max pos a = pos by omega, show min pos (e + 1) = pos by omega]
            have hdp : src.drop pos = (src.drop a).drop (pos - a) := by
              rw [drop_drop_add, show a + (pos - a) = pos by omega]
            rw [hdp, ← List.take_add,
              show pos - a + (min (pos + c.length) (e + 1) - pos) =
                min (pos + c.length) (e + 1) - a by omega]
          · rw [show max pos a = a by omega, show min pos (e + 1) - a = 0 by omega,
              List.take_zero, List.nil_append]
        rw [hcast, ← List.length_append, hacc_new]
        exact ih (i0 + 1) (pos + c.length)
          ((src.drop a).take (min (pos + c.length) (e + 1) - a)) hch' hrest_flat rfl
      · rw [if_neg hov]
        have h2 : (pos : Int) ≤ (e : Int) := by exact_mod_cast hppos
        have hnov : pos + c.length ≤ a := by
          rcases not_and_or.mp hov with h | h
          · omega
          · exact absurd h2 h
        rw [hcast]
        have hacc' : acc = (src.drop a).take (min (pos + c.length) (e + 1) - a) := by
          rw [hacc, show min pos (e + 1) - a = 0 by omega,
            show min (pos + c.length) (e + 1) - a = 0 by omega]
        have happly := ih (i0 + 1) (pos + c.length) acc hch' hrest_flat hacc'
        exact happly

theorem natCast_repr (n : Nat) : ((n : Int)).repr = toString n := rfl

theorem rangeRegexMatch_ne_empty (rh : String) (p : List Char × List Char)
    (h : rangeRegexMatch rh = some p) : rh.isEmpty = false := by
  apply stringNonEmpty_of_data
  intro hnil
  have hnone : rangeRegexMatch rh = none := by
    unfold rangeRegexMatch
    rw [hnil]
  rw [hnone] at h
  exact Option.noConfusion h

theorem rangeRegexMatch_truthy (rh : String) (p : List Char × List Char)
    (h : rangeRegexMatch rh = some p) : jsTruthyStr (some rh) = true := by
  show (!rh.isEmpty) = true
  rw [rangeRegexMatch_ne_empty rh p h]
  rfl

/-- C1: for a fresh KV cache entry holding the bytes `src` — in either the
single-entry layout or the chunked layout with a consistent manifest —
and any Range header `bytes=a-b` satisfiable against the total size
(`a < src.length` and `a ≤ b`), `kvCacheMatch` returns a 206 whose body
is `src[a ..= min b (src.length-1)]`, with `Content-Range`
`bytes a-(min b (src.length-1))/src.length` and `Content-Length` the
slice length. -/
theorem kvCacheMatch_range_correct
    (store : KVStore) (now : Int) (src : List Nat) (rh : String)
    (sa sb : List Char) (a b : Nat)
    (hm : rangeRegexMatch rh = some (sa, sb)) (hsa : sa ≠ [])
    (hpa : jsParseDigits sa = some a) (hpb : jsParseDigits sb = some b)
    (haT : a < src.length) (hab : a ≤ b)
    (hlayout :
      (∃ md, store.base = some (.singleMarker, md) ∧ md.isChunked = false ∧
        store.body = some src ∧ md.contentLength = src.length ∧
        now - md.createdAt ≤ (md.maxAge : Int) * 1000) ∨
      (∃ (m : ChunkManifest) (md : KVCacheMetadata) (chunks : List (List Nat)),
        store.base = some (.manifestVal m, md) ∧ md.isChunked = true ∧
        now - md.createdAt ≤ (md.maxAge : Int) * 1000 ∧
        m.totalSize = src.length ∧ m.chunkCount = chunks.length ∧
        m.chunkSizes = chunks.map List.length ∧ chunks.flatten = src ∧
        0 < chunks.length ∧
        (∀ k, store.chunk k = chunks[k]?))) :
    ∃ resp, kvCacheMatch store now (some rh) = some resp ∧
      resp.status = 206 ∧
      resp.body = some ((src.drop a).take (min b (src.length - 1) + 1 - a)) ∧
      hget resp.headers "Content-Range" =
        some ("bytes " ++ toString a ++ "-" ++ toString (min b (src.length - 1)) ++ "/" ++
          toString src.length) ∧
      hget resp.headers "Content-Length" =
        some (toString (min b (src.length - 1) + 1 - a)) := by
  have hparse := parseRange_explicit rh sa sb a b src.length hm hsa hpa hpb haT hab
  have hemp := rangeRegexMatch_ne_empty rh (sa, sb) hm
  have hlen : ((src.drop a).take (min b (src.length - 1) + 1 - a)).length =
      min b (src.length - 1) + 1 - a := by
    rw [List.length_take, List.length_drop]
    omega
  rcases hlayout with ⟨md, hbase, hchk, hbody, hcl, hfresh⟩ |
    ⟨m, md, chunks, hbase, hchk, hfresh, hts, hcount, hsizes, hflat, hpos, hchunk⟩
  · -- single-entry layout
    have hsl : jsSlice src (jsNumToSliceArg (some (a : Int)))
        (((min b (src.length - 1) : Nat) : Int) + 1) =
        (src.drop a).take (min b (src.length - 1) + 1 - a) := by
      show jsSlice src ((a : Nat) : Int) _ = _
      rw [jsSlice_nonneg _ _ _ (by omega) (by omega)]
      rw [show (((min b (src.length - 1) : Nat) : Int) + 1).toNat =
          min b (src.length - 1) + 1 by omega,
        show ((a : Nat) : Int).toNat = a by omega]
      rw [List.drop_take]
    have hstep : kvCacheMatch store now (some rh) = some
        { status := 206,
          headers := hset (hset (buildHeaders md) "Content-Range"
              ("bytes " ++ toString a ++ "-" ++ toString (min b (src.length - 1)) ++ "/" ++
                toString src.length)) "Content-Length"
            (toString (min b (src.length - 1) + 1 - a)),
          body := some ((src.drop a).take (min b (src.length - 1) + 1 - a)) } := by
      unfold kvCacheMatch
      simp only [hbase, hchk, Bool.not_false, if_true, if_neg (not_lt.mpr hfresh), hbody]
      rw [if_neg (show ¬src.length ≠ md.contentLength by omega)]
      unfold buildResponse
      simp only [hemp, Bool.false_eq_true, if_false, hparse]
      rw [hsl, hlen]
      dsimp only [jsNumStr]
      rw [natCast_repr, natCast_repr]
    exact ⟨_, hstep, rfl, rfl,
      by rw [hget_hset_diff _ _ _ _ (by decide), hget_hset_same],
      by rw [hget_hset_same]⟩
  · -- chunked layout
    have htruthy : jsTruthyStr (some rh) = true := rangeRegexMatch_truthy rh (sa, sb) hm
    have hcc : ¬m.chunkCount = 0 := by rw [hcount]; omega
    have hch : ∀ (k : Nat) (c : List Nat), chunks[k]? = some c →
        store.chunk (0 + k) = some c := by
      intro k c hk
      rw [Nat.zero_add, hchunk k]
      exact hk
    have hflat0 : chunks.flatten = src.drop 0 := by rw [List.drop_zero]; exact hflat
    have hloop := chunkedRangeLoop_correct store.chunk src a (min b (src.length - 1))
      (by omega) (by omega) chunks 0 0 [] hch hflat0 (by simp)
    simp only [Nat.cast_zero, List.length_nil] at hloop
    have hsz : ((chunks.map List.length).take chunks.length).map (fun (n : Nat) => (n : Int)) =
        chunks.map (fun c => (c.length : Int)) := by
      rw [show chunks.length = (chunks.map List.length).length from
        (List.length_map _ _).symm]
      rw [List.take_length, List.map_map]
      rfl
    have hclstr : ((min b (src.length - 1) : Nat) : Int) - (a : Int) + 1 =
        ((min b (src.length - 1) + 1 - a : Nat) : Int) := by omega
    have hstep : kvCacheMatch store now (some rh) = some
        { status := 206,
          headers := hset (hset (buildHeaders md) "Content-Range"
              ("bytes " ++ toString a ++ "-" ++ toString (min b (src.length - 1)) ++ "/" ++
                toString src.length)) "Content-Length"
            (toString (min b (src.length - 1) + 1 - a)),
          body := some ((src.drop a).take (min b (src.length - 1) + 1 - a)) } := by
      unfold kvCacheMatch
      simp only [hbase, hchk, Bool.not_true, Bool.false_eq_true, if_false,
        if_neg (not_lt.mpr hfresh), if_neg hcc, htruthy, if_true, Option.getD_some]
      unfold buildChunkedRangeResponse
      rw [hts]
      simp only [hparse]
      rw [hsizes, hcount, hsz, hloop]
      dsimp only [jsNumStr]
      rw [natCast_repr, hclstr, natCast_repr, natCast_repr]
    exact ⟨_, hstep, rfl, rfl,
      by rw [hget_hset_diff _ _ _ _ (by decide), hget_hset_same],
      by rw [hget_hset_same]⟩

/-- Concrete metadata for the C1 witness: a fresh chunked entry. -/
def c1md : KVCacheMetadata :=
  { contentType := "application/octet-stream", contentLength := 5, etag := "",
    isChunked := true, createdAt := 0, maxAge := 60, headers := [] }

/-- Concrete chunk contents for the C1 witness. -/
def c1chunks : List (List Nat) := [[10, 11, 12], [13, 14]]

/-- Concrete chunked store for the C1 witness. -/
def c1store : KVStore :=
  { base := some (KVValue.manifestVal
      { totalSize := 5, chunkCount := 2, chunkSizes := [3, 2] }, c1md),
    body := none,
    chunk := fun k => c1chunks[k]? }

/-- Witness for C1: `bytes=1-3` against the 5-byte two-chunk entry yields a
206 with body bytes 1..3, `Content-Range: bytes 1-3/5` and
`Content-Length: 3`. -/
theorem kvCacheMatch_range_correct_witness :
    ∃ resp, kvCacheMatch c1store 0 (some "bytes=1-3") = some resp ∧
      resp.status = 206 ∧ resp.body = some [11, 12, 13] ∧
      hget resp.headers "Content-Range" = some "bytes 1-3/5" ∧
      hget resp.headers "Content-Length" = some "3" := by
  obtain ⟨resp, h1, h2, h3, h4, h5⟩ :=
    kvCacheMatch_range_correct c1store 0 [10, 11, 12, 13, 14] "bytes=1-3" ['1'] ['3'] 1 3
      (by decide) (by decide) (by decide) (by decide) (by decide) (by decide)
      (Or.inr ⟨{ totalSize := 5, chunkCount := 2, chunkSizes := [3, 2] }, c1md, c1chunks,
        rfl, rfl, by decide, rfl, rfl, rfl, rfl, by decide, fun k => rfl⟩)
  exact ⟨resp, h1, h2, h3.trans (by decide), h4.trans (by decide), h5.trans (by decide)⟩

end R2Worker
